import Mathlib

/-!
Verification development for the confluence-md conversion engine.

The definitions below are a shallow embedding of the Go sources:
`internal/converter/plugin/confluence.go` (node handlers, macro table,
table flattening), `internal/converter/converter.go` and the converter
helper file (`convertHtml`, `postprocessMarkdown`, `fixNestedListSpacing`,
`fixMarkdownLinks`, `preprocessCDATA`), and
`internal/confluence/model/page.go` (page validation).

HTML nodes (golang.org/x/net/html) are modelled as a tree of text leaves
and elements.  The external html-to-markdown library conversion
(`ctx.RenderNodes` / `ConvertString`) is kept abstract as a function
parameter, since it is not part of this repository.  Go regexps (RE2,
leftmost-first matching with greedy operators) are implemented as
deterministic character-list scanners; recursion that Go bounds by the
shrinking of its argument is implemented with an explicit fuel argument
that is at least the length of the scanned list, so every definition is
a structurally recursive computable function.
-/

namespace ConfluenceMd
/-- Render outcome of a single handler invocation
(`converter.RenderSuccess` / `converter.RenderTryNext`). -/
inductive RenderStatus
| success
| tryNext
deriving DecidableEq, Repr

/-- An HTML node (golang.org/x/net/html `html.Node`): a text leaf
(`html.TextNode` with its `Data`), or an element (`html.ElementNode`)
with tag name (`Data`), attributes (`Attr`) and ordered children. -/
inductive Node
| text (data : String)
| elem (tag : String) (attrs : List (String × String)) (children : List Node)
deriving Repr

/-- RE2 Perl character class `\s` (ASCII): tab, newline, form feed,
carriage return, space. -/
def isRe2Space (c : Char) : Bool :=
  c = ' ' || c = '\t' || c = '\n' || c = '\x0c' || c = '\r'

/-- Go `unicode.IsSpace` restricted to the characters that can occur
here: ASCII whitespace plus NEL and NBSP (the Latin-1 range of
`unicode.IsSpace`; the remaining Unicode space runes do not occur in
the strings this development manipulates). -/
def goIsSpace (c : Char) : Bool :=
  c = ' ' || c = '\t' || c = '\n' || c = '\x0b' || c = '\x0c' || c = '\r' ||
  c = '\x85' || c = '\xa0'

/-! ## Post-processing normalizer (converter helper file)

`postprocessMarkdown` applies, in order: collapse of 3+ newlines to 2,
`fixNestedListSpacing` to a fixed point, `fixMarkdownLinks`, and
`strings.TrimSpace`. -/

/-- One pass of `regexp \n{3,} → "\n\n"`: every maximal run of three or
more newlines is replaced by exactly two.  Fuel is the length of the
list; every step consumes at least one character. -/
def collapseNlGo : Nat → List Char → List Char
  | 0, cs => cs
  | fuel+1, '\n' :: '\n' :: '\n' :: rest =>
    '\n' :: '\n' :: collapseNlGo fuel (rest.dropWhile (fun c => c = '\n'))
  | fuel+1, c :: rest => c :: collapseNlGo fuel rest
  | _+1, [] => []

/-- The `\n{3,}` collapse applied to a string. -/
def collapseNewlines (s : String) : String :=
  ⟨collapseNlGo s.data.length s.data⟩

/-- Match the second alternative `\d+\.\s` of the list-marker group of
`fixNestedListSpacing`: maximal digit run, a dot, one whitespace
character.  Returns the consumed characters and the rest. -/
def matchNumMarker (cs : List Char) : Option (List Char × List Char) :=
  if (cs.takeWhile Char.isDigit).isEmpty then none
  else
    match cs.dropWhile Char.isDigit with
    | '.' :: w :: rest =>
      if isRe2Space w then some (cs.takeWhile Char.isDigit ++ ['.', w], rest)
      else none
    | _ => none

/-- Match the list-marker group `(?:[-*+]\s|\d+\.\s)` at the head of the
list.  The two alternatives consume disjoint first characters, so the
RE2 alternation is deterministic. -/
def matchMarker (cs : List Char) : Option (List Char × List Char) :=
  match cs with
  | c :: d :: rest =>
    if (c = '-' || c = '*' || c = '+') && isRe2Space d then some ([c, d], rest)
    else matchNumMarker (c :: d :: rest)
  | cs => matchNumMarker cs

/-- Scan of the blank-gap whitespace run of `fixNestedListSpacing`:
return the largest index `j` such that `run[j] = '\n'` and at least two
whitespace characters remain after it (`j + 3 ≤ run.length`) — the
position the greedy `\s*` of `\n\s*\n(\s{2,}…)` leaves for the second
literal newline. -/
def getJGo : List Char → Nat → Nat → Option Nat → Option Nat
  | [], _, _, acc => acc
  | c :: tl, j, len, acc =>
    getJGo tl (j+1) len (if c = '\n' ∧ j + 3 ≤ len then some j else acc)

/-- Choice of the second literal newline inside the whitespace run. -/
def getJ (run : List Char) : Option Nat :=
  getJGo run 0 run.length none

/-- Assemble the result of a nested-list-spacing match from its pieces:
the matched text, the `$1\n$2` replacement, and the remaining input. -/
def assembleNested (w m1 lineRest run m2 r3 : List Char) (j : Nat) :
    List Char × List Char × List Char :=
  ('\n' :: (w ++ m1 ++ lineRest) ++ '\n' :: (run.take (j+1) ++ (run.drop (j+1) ++ m2)),
   '\n' :: (w ++ m1 ++ lineRest) ++ '\n' :: (run.drop (j+1) ++ m2),
   r3)

/-- Attempt the `fixNestedListSpacing` pattern
`(\n\s*M[^\n]*)\n\s*\n(\s{2,}M)` (with `M` the list-marker group) at the
head of the list, with RE2 greedy semantics.  On success, returns
`(matched, replacement, rest)` where `replacement` is `$1 ++ "\n" ++ $2`. -/
def matchHereNested (cs : List Char) : Option (List Char × List Char × List Char) :=
  match cs with
  | '\n' :: tl =>
    match matchMarker (tl.dropWhile isRe2Space) with
    | none => none
    | some (m1, r1) =>
      match r1.dropWhile (fun c => c != '\n') with
      | '\n' :: r2 =>
        match matchMarker (r2.dropWhile isRe2Space) with
        | none => none
        | some (m2, r3) =>
          match getJ (r2.takeWhile isRe2Space) with
          | none => none
          | some j =>
            some (assembleNested (tl.takeWhile isRe2Space) m1
              (r1.takeWhile (fun c => c != '\n')) (r2.takeWhile isRe2Space) m2 r3 j)
      | _ => none
  | _ => none

/-- One `ReplaceAllString` pass of the nested-list-spacing pattern:
leftmost non-overlapping matches, each replaced by `$1\n$2`.  Fuel is
the length of the list. -/
def nestedScan : Nat → List Char → List Char
  | 0, cs => cs
  | _+1, [] => []
  | fuel+1, c :: tl =>
    match matchHereNested (c :: tl) with
    | some (_, repl, rest) => repl ++ nestedScan fuel rest
    | none => c :: nestedScan fuel tl

/-- A single pass of the `fixNestedListSpacing` rewrite on a string. -/
def nestedStep (s : String) : String :=
  ⟨nestedScan s.data.length s.data⟩

/-- Go `fixNestedListSpacing` recurses while the pass changed the
string; each change strictly shrinks it, so `s.length + 1` steps always
reach the fixed point (`fixNestedGo_fix` below). -/
def fixNestedGo : Nat → String → String
  | 0, s => s
  | fuel+1, s =>
    let r := nestedStep s
    if r = s then r else fixNestedGo fuel r

/-- `fixNestedListSpacing` from the converter helper file. -/
def fixNestedListSpacing (s : String) : String :=
  fixNestedGo (s.length + 1) s

/-- Drop a literal string from the head of the list, if present. -/
def dropLit (lit : String) (cs : List Char) : Option (List Char) :=
  if lit.data.isPrefixOf cs then some (cs.drop lit.data.length) else none

/-- Attempt the `fixMarkdownLinks` pattern
`\[([^\]]+)\]\(/wiki/spaces/([^/]+)/pages/(\d+)/[^)]+\)` at the head of
the list.  All quantified pieces are followed by a character excluded
from their class, so RE2 matching is deterministic.  On success returns
`(replacement, rest)` with replacement `[$1](confluence://pageId/$3)`. -/
def matchLinkHere (cs : List Char) : Option (List Char × List Char) :=
  match cs with
  | '[' :: tl =>
    let txt := tl.takeWhile (fun c => c != ']')
    if txt.isEmpty then none
    else
      match tl.dropWhile (fun c => c != ']') with
      | ']' :: '(' :: u1 =>
        match dropLit "/wiki/spaces/" u1 with
        | none => none
        | some u2 =>
          let sp := u2.takeWhile (fun c => c != '/')
          if sp.isEmpty then none
          else
            match u2.dropWhile (fun c => c != '/') with
            | '/' :: u3 =>
              match dropLit "pages/" u3 with
              | none => none
              | some u4 =>
                let ds := u4.takeWhile Char.isDigit
                if ds.isEmpty then none
                else
                  match u4.dropWhile Char.isDigit with
                  | '/' :: u5 =>
                    let ttl := u5.takeWhile (fun c => c != ')')
                    if ttl.isEmpty then none
                    else
                      match u5.dropWhile (fun c => c != ')') with
                      | ')' :: u6 =>
                        some ('[' :: txt ++ ']' :: '(' ::
                          ("confluence://pageId/".data ++ ds ++ [')']), u6)
                      | _ => none
                  | _ => none
            | _ => none
      | _ => none
  | _ => none

/-- One `ReplaceAllString` pass of the Confluence-link pattern. -/
def linkScan : Nat → List Char → List Char
  | 0, cs => cs
  | _+1, [] => []
  | fuel+1, c :: tl =>
    match matchLinkHere (c :: tl) with
    | some (repl, rest) => repl ++ linkScan fuel rest
    | none => c :: linkScan fuel tl

/-- `fixMarkdownLinks` from the converter helper file. -/
def fixMarkdownLinks (s : String) : String :=
  ⟨linkScan s.data.length s.data⟩

/-- Go `strings.TrimSpace`. -/
def goTrimSpace (s : String) : String :=
  ⟨((s.data.dropWhile goIsSpace).reverse.dropWhile goIsSpace).reverse⟩

/-- `postprocessMarkdown` from the converter helper file: collapse 3+
newlines, fix nested-list spacing to a fixed point, rewrite Confluence
links, trim. -/
def postprocessMarkdown (s : String) : String :=
  goTrimSpace (fixMarkdownLinks (fixNestedListSpacing (collapseNewlines s)))

/-- Replace every occurrence of one character by a replacement list. -/
def replChar (c0 : Char) (rep : List Char) (l : List Char) : List Char :=
  l.flatMap (fun c => if c = c0 then rep else [c])

/-- The entity escaping applied to CDATA content by `preprocessCDATA`
(`&` first, then `<`, then `>`). -/
def escapeCdata (l : List Char) : List Char :=
  replChar '>' "&gt;".data (replChar '<' "&lt;".data (replChar '&' "&amp;".data l))

/-- Split the list around the first occurrence of `pat`, returning the
part before it and the part after it. -/
def splitSub (pat : List Char) : Nat → List Char → Option (List Char × List Char)
  | 0, _ => none
  | fuel+1, cs =>
    if pat.isPrefixOf cs then some ([], cs.drop pat.length)
    else
      match cs with
      | [] => none
      | c :: tl =>
        match splitSub pat fuel tl with
        | some (b, a) => some (c :: b, a)
        | none => none

/-- Scanner for `preprocessCDATA`: each `<![CDATA[…]]>` section (lazy
match, so up to the first `]]>`) becomes
`<pre data-cdata='true'>…</pre>` with entity-escaped content. -/
def cdataScan : Nat → List Char → List Char
  | 0, cs => cs
  | _+1, [] => []
  | fuel+1, c :: tl =>
    if "<![CDATA[".data.isPrefixOf (c :: tl) then
      match splitSub "]]>".data (c :: tl).length ((c :: tl).drop 9) with
      | some (content, rest) =>
        "<pre data-cdata=\x27true\x27>".data ++ escapeCdata content ++
          "</pre>".data ++ cdataScan fuel rest
      | none => c :: cdataScan fuel tl
    else c :: cdataScan fuel tl

/-- `preprocessCDATA` from the converter helper file. -/
def preprocessCDATA (s : String) : String :=
  ⟨cdataScan s.data.length s.data⟩

/-- The converter's `convertHtml`: the library conversion
(`mdConverter.ConvertString`, abstract here as `conv`, returning its
markdown and optional error) is run on the CDATA-preprocessed input; a
conversion error is printed and discarded, and the post-processed
markdown is returned with a `nil` error. -/
def convertHtml (conv : String → String × Option String) (html : String) :
    String × Option String :=
  let processed := preprocessCDATA html
  (postprocessMarkdown (conv processed).1, none)

/-! ## Node helpers -/

/-- The `Data` field of `html.Node`: the text of a text leaf, the tag
name of an element. -/
def Node.data : Node → String
  | .text s => s
  | .elem t _ _ => t

/-- The children of a node (a text leaf has none). -/
def Node.children : Node → List Node
  | .text _ => []
  | .elem _ _ cs => cs

/-- The attribute list of a node. -/
def Node.attrs : Node → List (String × String)
  | .text _ => []
  | .elem _ a _ => a

/-- First attribute with the given key (the Go loops over `n.Attr`
break at the first key match). -/
def findAttr (attrs : List (String × String)) (key : String) : Option String :=
  match attrs with
  | [] => none
  | (k, v) :: rest => if k = key then some v else findAttr rest key

/-- Attribute lookup on a node. -/
def Node.attrOf (n : Node) (key : String) : Option String :=
  findAttr n.attrs key

/-- First attribute with the given key and a non-empty value (the
`handleEmoticon` loops test `attr.Key == k && attr.Val != ""`). -/
def findAttrNE (attrs : List (String × String)) (key : String) : Option String :=
  match attrs with
  | [] => none
  | (k, v) :: rest => if k = key ∧ v ≠ "" then some v else findAttrNE rest key

mutual

/-- Concatenated text of all descendant text leaves (goquery `.Text()`). -/
def textContent : Node → String
  | .text s => s
  | .elem _ _ cs => textContentList cs

def textContentList : List Node → String
  | [] => ""
  | n :: rest => textContent n ++ textContentList rest

end

mutual

/-- First node in preorder (the node itself included) satisfying the
predicate.  Models a goquery `Find(…).First()` over the subtree of a
re-rendered node. -/
def findNodeP (p : Node → Bool) : Node → Option Node
  | .text s => if p (.text s) then some (.text s) else none
  | .elem t a cs =>
    if p (.elem t a cs) then some (.elem t a cs) else findNodePList p cs

def findNodePList (p : Node → Bool) : List Node → Option Node
  | [] => none
  | n :: rest =>
    match findNodeP p n with
    | some r => some r
    | none => findNodePList p rest

end

/-- Check that a node is an element with the given tag. -/
def Node.tagIs (n : Node) (t : String) : Bool :=
  match n with
  | .text _ => false
  | .elem tag _ _ => tag = t

mutual

/-- `findRichTextBodyNode`: preorder search for `ac:rich-text-body`. -/
def findRichTextBodyNode : Node → Option Node
  | .text _ => none
  | .elem t a cs =>
    if t = "ac:rich-text-body" then some (.elem t a cs)
    else findRichTextBodyList cs

def findRichTextBodyList : List Node → Option Node
  | [] => none
  | n :: rest =>
    match findRichTextBodyNode n with
    | some r => some r
    | none => findRichTextBodyList rest

end

mutual

/-- `containsBrTags`: the node is a `br` element or contains one. -/
def containsBrTags : Node → Bool
  | .text _ => false
  | .elem t _ cs => t = "br" || containsBrList cs

def containsBrList : List Node → Bool
  | [] => false
  | n :: rest => containsBrTags n || containsBrList rest

end

/-- Go `strings.ReplaceAll` for a non-empty pattern, as a scanner. -/
def replaceSubScan (pat rep : List Char) : Nat → List Char → List Char
  | 0, cs => cs
  | _+1, [] => []
  | fuel+1, c :: tl =>
    if pat.isPrefixOf (c :: tl) && !pat.isEmpty then
      rep ++ replaceSubScan pat rep fuel ((c :: tl).drop pat.length)
    else c :: replaceSubScan pat rep fuel tl

/-- Go `strings.ReplaceAll` on strings. -/
def goReplaceAll (s pat rep : String) : String :=
  ⟨replaceSubScan pat.data rep.data s.data.length s.data⟩

/-- Go `strings.Replace(s, pat, rep, 1)`: replace the first occurrence. -/
def goReplaceFirst (s pat rep : String) : String :=
  match splitSub pat.data (s.data.length + 1) s.data with
  | some (b, a) => ⟨b ++ rep.data ++ a⟩
  | none => s

/-! ## Conversion context and plugin state

The html-to-markdown library context (`converter.Context`) is abstract:
`renderNodes` stands for `ctx.RenderNodes`, the library's conversion of
a node (re-entering the registered handlers), which is outside this
repository. -/

/-- Abstract conversion context. -/
structure Ctx where
  renderNodes : Node → String

/-- The `ConfluencePlugin` state used by the handlers. -/
structure ConfluencePlugin where
  imageFolder : String := ""
  baseURL : String := ""
  userCache : List (String × String) := []

/-- Children walk of `convertNestedHTML`: whitespace-only text children
are skipped, other text children are written trimmed, empty `<p/>`
elements are skipped, and remaining element children are rendered
through the library conversion. -/
def convertNestedChildren (ctx : Ctx) : List Node → String
  | [] => ""
  | .text s :: rest =>
    (if goTrimSpace s = "" then "" else goTrimSpace s) ++ convertNestedChildren ctx rest
  | .elem "p" _ [] :: rest => convertNestedChildren ctx rest
  | .elem t a cs :: rest => ctx.renderNodes (.elem t a cs) ++ convertNestedChildren ctx rest

/-- `convertNestedHTML`: find the `ac:rich-text-body` node, convert its
direct children, and trim the result. -/
def convertNestedHTML (ctx : Ctx) (n : Node) : String :=
  match findRichTextBodyNode n with
  | none => ""
  | some rtb => goTrimSpace (convertNestedChildren ctx rtb.children)

/-! ## String split and join helpers (Go `strings.Split(s, "\n")`,
`strings.TrimRight(s, "\n")`) -/

/-- Split a character list at every newline; empty pieces are kept and
the result is never empty. -/
def splitNlChars : List Char → List (List Char)
  | [] => [[]]
  | c :: rest =>
    if c = '\n' then [] :: splitNlChars rest
    else
      match splitNlChars rest with
      | w :: ws => (c :: w) :: ws
      | [] => [[c]]

/-- Go `strings.Split(s, "\n")`. -/
def goSplitNl (s : String) : List String :=
  (splitNlChars s.data).map (fun l => ⟨l⟩)

/-- Trailing-newline trim on character lists. -/
def trimNlData (l : List Char) : List Char :=
  (l.reverse.dropWhile (fun c => c = '\n')).reverse

/-- Go `strings.TrimRight(s, "\n")`. -/
def trimNlRight (s : String) : String :=
  ⟨trimNlData s.data⟩

/-- Newline-separated concatenation of character-list pieces (the
inverse of `splitNlChars` on newline-free pieces). -/
def intercalNl : List (List Char) → List Char
  | [] => []
  | [w] => w
  | w :: ws => w ++ '\n' :: intercalNl ws

/-- One body line of the blockquote rendering: non-blank lines get the
`"> "` marker, blank lines become a bare `">"` (the string
`handleBlockquoteMacro` appends for that line, without the newline). -/
def bqLine (l : String) : String :=
  if goTrimSpace l ≠ "" then "> " ++ l else ">"

/-! ## Macro handlers -/

/-- Per-line blockquote body of `handleBlockquoteMacro`: non-blank lines
get the `"> "` marker, blank lines become a bare `">"`. -/
def blockquoteLines : List String → String
  | [] => ""
  | l :: rest =>
    (if goTrimSpace l ≠ "" then "> " ++ l ++ "\n" else ">\n") ++ blockquoteLines rest

/-- `handleBlockquoteMacro`: wrap the recursively converted rich body in
a blockquote with an emoji+label marker; multi-line bodies repeat the
marker on every line. -/
def handleBlockquoteMacro (ctx : Ctx) (n : Node) (emoji label : String) : String :=
  let content := convertNestedHTML ctx n
  let pfx := emoji ++ " **" ++ label ++ ":**"
  if content = "" then "> " ++ pfx
  else if (goSplitNl content).length > 1 then
    trimNlRight ("> " ++ pfx ++ "\n" ++ blockquoteLines (goSplitNl content))
  else "> " ++ pfx ++ " " ++ content

/-- The `Data` of the first child of an `ac:parameter` element, used by
`handleStatusMacro` (`child.FirstChild.Data`). -/
def statusParamsGo : List Node → String → String → String × String
  | [], title, colour => (title, colour)
  | .elem "ac:parameter" a (v :: _) :: rest, title, colour =>
    if (findAttr a "ac:name").getD "" = "title" then
      statusParamsGo rest v.data colour
    else if (findAttr a "ac:name").getD "" = "colour" then
      statusParamsGo rest title v.data
    else statusParamsGo rest title colour
  | _ :: rest, title, colour => statusParamsGo rest title colour

/-- Colour-to-emoji palette of `handleStatusMacro`. -/
def statusEmoji (colour : String) : String :=
  match colour.toLower with
  | "red" => "🔴"
  | "yellow" => "🟡"
  | "green" => "🟢"
  | "blue" => "🔵"
  | "grey" => "⚪"
  | "gray" => "⚪"
  | _ => ""

/-- `handleStatusMacro`. -/
def handleStatusMacro (n : Node) : String :=
  let tc := statusParamsGo n.children "" ""
  let emoji := statusEmoji tc.2
  if tc.1 ≠ "" then
    if emoji ≠ "" then emoji ++ " **" ++ tc.1 ++ "**"
    else "**[" ++ tc.1 ++ "]**"
  else ""

/-- Parameter-child test of `handleTocMacro`. -/
def hasParamChild : List Node → Bool
  | [] => false
  | .elem "ac:parameter" _ _ :: _ => true
  | _ :: rest => hasParamChild rest

/-- `handleTocMacro`: emit `[toc]`; `tryNext` when the node has no
parameter children, terminal otherwise. -/
def handleTocMacro (n : Node) : String × Bool :=
  if hasParamChild n.children then ("[toc]", false) else ("[toc]", true)

/-- `extractMacroParameter`: trimmed text of the first
`ac:parameter[ac:name=name]` in the subtree (the Go code re-renders the
node and queries it with goquery; this is modelled as a direct subtree
search). -/
def extractParameterText (n : Node) (name : String) : String :=
  match findNodeP
      (fun m => m.tagIs "ac:parameter" && (m.attrOf "ac:name").getD "" = name) n with
  | some p => goTrimSpace (textContent p)
  | none => ""

/-- Modelled from the spec: `extractLanguageParameter` is not under
`src/`; per §4.2 the code macro "extract[s] a language parameter (if
present)", which in storage format is the `ac:parameter` named
`language`. -/
def extractLanguageParameter (n : Node) : String :=
  extractParameterText n "language"

/-- Modelled from the spec: `extractCodeContent` is not under `src/`;
per §4.2 it recovers "the literal body preserved through the CDATA
pre-pass", i.e. the text of the macro's plain-text body. -/
def extractCodeContent (n : Node) : String :=
  match findNodeP (fun m => m.tagIs "ac:plain-text-body") n with
  | some b => goTrimSpace (textContent b)
  | none => ""

/-- Entity unescape of `extractPlainTextBodyContent` (`&lt;`, `&gt;`,
`&amp;`, in that order). -/
def unescapeEntities (s : String) : String :=
  goReplaceAll (goReplaceAll (goReplaceAll s "&lt;" "<") "&gt;" ">") "&amp;" "&"

/-- `extractPlainTextBodyContent`: text of the CDATA-preserving
`pre[data-cdata='true']` inside the first `ac:plain-text-body`,
entity-unescaped and trimmed; falling back to `extractCodeContent`. -/
def extractPlainTextBodyContent (n : Node) : String :=
  match findNodeP (fun m => m.tagIs "ac:plain-text-body") n with
  | none => extractCodeContent n
  | some ptb =>
    match findNodeP
        (fun m => m.tagIs "pre" && (m.attrOf "data-cdata").getD "" = "true") ptb with
    | some pre => goTrimSpace (unescapeEntities (textContent pre))
    | none => extractCodeContent n

/-- `handleCodeMacro`: fenced code block, tagged with the language when
one is present. -/
def handleCodeMacro (n : Node) : String :=
  let language := extractLanguageParameter n
  let code0 := extractPlainTextBodyContent n
  let code := if code0 = "" then extractCodeContent n else code0
  if language ≠ "" then "```" ++ language ++ "\n" ++ code ++ "\n```\n"
  else "```\n" ++ code ++ "\n```\n"

/-- `handleMermaidMacro`: fenced mermaid block, or an explicit
empty-diagram comment. -/
def handleMermaidMacro (n : Node) : String :=
  let diagram := goTrimSpace
    (match findNodeP (fun m => m.tagIs "ac:plain-text-body") n with
     | some b => textContent b
     | none => "")
  if diagram = "" then "<!-- Empty mermaid macro -->"
  else "```mermaid\n" ++ diagram ++ "\n```\n"

/-- `handleJiraMacro`: issue link built from the base URL when present. -/
def handleJiraMacro (p : ConfluencePlugin) (n : Node) : String :=
  let jira := extractParameterText n "key"
  if p.baseURL ≠ "" then
    "[" ++ jira ++ "](" ++ goReplaceFirst p.baseURL "confluence" "jira" ++
      "/browse/" ++ jira ++ ")"
  else jira

/-- `handleViewFileMacro`: relative link to the locally stored
attachment, or an explicit not-found comment. -/
def handleViewFileMacro (p : ConfluencePlugin) (n : Node) : String :=
  match findNodeP (fun m => m.tagIs "ri:attachment") n with
  | some att =>
    match att.attrOf "ri:filename" with
    | some fn => "[" ++ fn ++ "](" ++ p.imageFolder ++ "/" ++ fn ++ ")"
    | none => "<!-- file attachment not found -->"
  | none => "<!-- file attachment not found -->"

/-- Modelled after `github.com/gosimple/slug.Make` (external library):
lowercase, non-alphanumeric runs become single dashes, dashes trimmed. -/
def slugMake (s : String) : String :=
  let keep := fun c : Char => c.isAlpha || c.isDigit
  let dashed := s.toLower.data.map (fun c => if keep c then c else '-')
  let collapsed := (dashed.foldr
    (fun c acc => if c = '-' ∧ acc.head? = some '-' then acc else c :: acc) [])
  ⟨(collapsed.dropWhile (fun c => c = '-')).reverse.dropWhile (fun c => c = '-') |>.reverse⟩

/-- `handleAnchorMacro`: anchor tag from the slugified text. -/
def handleAnchorMacro (n : Node) : String :=
  let anchor := textContent n
  if anchor = "" then "<!-- anchor macro has no anchor -->"
  else "<a name=" ++ slugMake anchor ++ "></a>"

/-- `handleExpandMacro`: transparent container, content emitted bare. -/
def handleExpandMacro (ctx : Ctx) (n : Node) : String :=
  let content := convertNestedHTML ctx n
  if content ≠ "" then content ++ "\n\n" else ""

/-- `handleDetailsMacro`: transparent container, content emitted bare. -/
def handleDetailsMacro (ctx : Ctx) (n : Node) : String :=
  let content := convertNestedHTML ctx n
  if content = "" then "" else content ++ "\n\n"

/-- `handleMacro`: the closed macro handler table.  Returns the written
string and the render status (`tryNext` only for a parameterless toc
macro). -/
def handleMacro (p : ConfluencePlugin) (ctx : Ctx) (n : Node) :
    String × RenderStatus :=
  let mn0 := (n.attrOf "ac:name").getD ""
  let mn := if mn0 = "" then "unknown" else mn0
  match mn with
  | "info" => (handleBlockquoteMacro ctx n "ℹ️" "Info", .success)
  | "warning" => (handleBlockquoteMacro ctx n "⚠️" "Warning", .success)
  | "note" => (handleBlockquoteMacro ctx n "📝" "Note", .success)
  | "tip" => (handleBlockquoteMacro ctx n "💡" "Tip", .success)
  | "code" => (handleCodeMacro n, .success)
  | "noformat" => (handleCodeMacro n, .success)
  | "mermaid-macro" => (handleMermaidMacro n, .success)
  | "expand" => (handleExpandMacro ctx n, .success)
  | "toc" =>
    match handleTocMacro n with
    | (r, true) => (r, .tryNext)
    | (r, false) => (r, .success)
  | "details" => (handleDetailsMacro ctx n, .success)
  | "status" => (handleStatusMacro n, .success)
  | "children" => ("<!-- Child Pages -->", .success)
  | "jira" => (handleJiraMacro p n, .success)
  | "view-file" => (handleViewFileMacro p n, .success)
  | "anchor" => (handleAnchorMacro n, .success)
  | _ => ("<!-- Unsupported macro: " ++ mn ++ " -->", .success)

/-- `handleEmoticon`: emoji fallback text, short name, name, or a
generic `:emoji:` placeholder; always `tryNext`. -/
def handleEmoticon (n : Node) : String × RenderStatus :=
  match findAttrNE n.attrs "ac:emoji-fallback" with
  | some v => (v ++ " ", .tryNext)
  | none =>
    match findAttrNE n.attrs "ac:emoji-shortname" with
    | some v => (v ++ " ", .tryNext)
    | none =>
      match findAttrNE n.attrs "ac:name" with
      | some v => (":" ++ v ++ ":", .tryNext)
      | none => (":emoji: ", .tryNext)

/-- `handleTime`: write the `datetime` attribute value; always
`tryNext` so sibling text is still rendered. -/
def handleTime (n : Node) : String × RenderStatus :=
  match n.attrOf "datetime" with
  | some d => (if d ≠ "" then d ++ " " else "", .tryNext)
  | none => ("", .tryNext)

/-- `handlePlaceholder`: trimmed text of a leading text child, as an
HTML comment. -/
def handlePlaceholder (n : Node) : String × RenderStatus :=
  match n.children with
  | .text s :: _ =>
    if goTrimSpace s ≠ "" then ("<!-- " ++ goTrimSpace s ++ " -->", .success)
    else ("", .success)
  | _ => ("", .success)

/-! ## Links and mentions -/

mutual

/-- Concatenated text of every element with the given tag in the
subtree (goquery `Find(tag).Text()`). -/
def collectTagText (t : String) : Node → String
  | .text _ => ""
  | .elem tag a cs =>
    if tag = t then textContent (.elem tag a cs) else collectTagTextList t cs

def collectTagTextList (t : String) : List Node → String
  | [] => ""
  | n :: rest => collectTagText t n ++ collectTagTextList t rest

end

/-- `handleAnchorLink`: the code re-renders the node, queries the first
`ac:link` for an `ac:anchor` attribute and takes the text of its
`ac:plain-text-link-body`; modelled as a direct subtree search. -/
def handleAnchorLink (n : Node) : String × RenderStatus :=
  match findNodeP (fun m => m.tagIs "ac:link") n with
  | some ln =>
    match ln.attrOf "ac:anchor" with
    | some anchor =>
      match goTrimSpace (collectTagText "ac:plain-text-link-body" ln) with
      | "" => ("", .tryNext)
      | linkText => ("[" ++ linkText ++ "](#" ++ slugMake anchor ++ ")", .success)
    | none => ("", .tryNext)
  | none => ("", .tryNext)

/-- User-mention scan of `handleLink`: the first `ri:user` child with a
non-empty `ri:account-id` is rendered from the user cache, with the
`@user(<id>)` fallback on a cache miss. -/
def scanUserChildren (p : ConfluencePlugin) : List Node → String × RenderStatus
  | [] => ("", .tryNext)
  | .text _ :: rest => scanUserChildren p rest
  | .elem t a _ :: rest =>
    if t = "ri:user" then
      match findAttr a "ri:account-id" with
      | some id0 =>
        if id0 ≠ "" then
          match p.userCache.lookup id0 with
          | some d => (" @" ++ d ++ " ", .tryNext)
          | none => (" @user(" ++ id0 ++ ") ", .tryNext)
        else scanUserChildren p rest
      | none => scanUserChildren p rest
    else scanUserChildren p rest

/-- `handleLink`: try the anchor-link form first; otherwise look for a
user mention; otherwise fall through to the default handler. -/
def handleLink (p : ConfluencePlugin) (n : Node) : String × RenderStatus :=
  match handleAnchorLink n with
  | (s, .success) => (s, .success)
  | (_, .tryNext) => scanUserChildren p n.children

/-! ## HTML re-rendering of inline elements (x/net/html `html.Render`) -/

/-- Escaping of `html.EscapeString`. -/
def escapeHtml (s : String) : String :=
  ⟨s.data.flatMap (fun c =>
    if c = '&' then "&amp;".data
    else if c = '\x27' then "&#39;".data
    else if c = '<' then "&lt;".data
    else if c = '>' then "&gt;".data
    else if c = '"' then "&#34;".data
    else [c])⟩

/-- HTML void elements, rendered as self-closing tags. -/
def voidTags : List String :=
  ["area", "base", "br", "col", "embed", "hr", "img", "input", "link",
   "meta", "param", "source", "track", "wbr"]

/-- Attribute rendering of `html.Render`. -/
def renderAttrs (attrs : List (String × String)) : String :=
  String.join (attrs.map (fun kv => " " ++ kv.1 ++ "=\"" ++ escapeHtml kv.2 ++ "\""))

mutual

/-- Model of x/net/html `html.Render` for the inline elements the cell
flattener preserves verbatim. -/
def htmlRender : Node → String
  | .text s => escapeHtml s
  | .elem t a cs =>
    if voidTags.contains t then "<" ++ t ++ renderAttrs a ++ "/>"
    else "<" ++ t ++ renderAttrs a ++ ">" ++ htmlRenderList cs ++ "</" ++ t ++ ">"

def htmlRenderList : List Node → String
  | [] => ""
  | n :: rest => htmlRender n ++ htmlRenderList rest

end

/-! ## Table cell flattening

The mutually recursive flattener of `confluence.go`
(`flattenCellContent`, `flattenListContentWithDepth`,
`flattenListItemContent`, `flattenTaskList`).  The recursion descends
into strictly smaller subtrees or list tails; it is written against an
explicit fuel argument, instantiated at the call site with a bound
(`4 * sizeOf cell + 4`) that exceeds the nesting depth of any input, so
the zero-fuel branches are never reached. -/

mutual

/-- `flattenCellContent`, iterating a sibling list. -/
def flattenCellChildren (p : ConfluencePlugin) (ctx : Ctx) :
    Nat → List Node → String
  | 0, _ => ""
  | _+1, [] => ""
  | fuel+1, c :: rest =>
    flattenOne p ctx fuel c (!rest.isEmpty) ++ flattenCellChildren p ctx fuel rest

/-- Dispatch of `flattenCellContent` on a single child (`hasNext` is
`child.NextSibling != nil`). -/
def flattenOne (p : ConfluencePlugin) (ctx : Ctx) :
    Nat → Node → Bool → String
  | 0, _, _ => ""
  | _+1, .text s, _ => s
  | fuel+1, .elem t a cs, hasNext =>
    if ["h1", "h2", "h3", "h4", "h5", "h6"].contains t then
      "<strong>" ++ flattenCellChildren p ctx fuel cs ++ "</strong>"
    else if t = "br" then "<br>"
    else if t = "p" then
      if cs.isEmpty then ""
      else flattenCellChildren p ctx fuel cs ++ (if hasNext then " " else "")
    else if t = "ul" then flattenListWithDepth p ctx fuel (.elem t a cs) false 0
    else if t = "ol" then flattenListWithDepth p ctx fuel (.elem t a cs) true 0
    else if t = "ac:task-list" then flattenTaskListGo p ctx fuel (.elem t a cs)
    else if ["strong", "b", "em", "i", "code", "a"].contains t then
      htmlRender (.elem t a cs)
    else if t = "ac:structured-macro" then (handleMacro p ctx (.elem t a cs)).1
    else if t = "ac:emoticon" then
      (handleEmoticon (.elem t a cs)).1 ++ flattenCellChildren p ctx fuel cs
    else if t = "ac:link" then (handleLink p (.elem t a cs)).1
    else if t = "time" then
      (handleTime (.elem t a cs)).1 ++ flattenCellChildren p ctx fuel cs
    else if t = "ac:inline-comment-marker" then flattenCellChildren p ctx fuel cs
    else if t = "ac:placeholder" then (handlePlaceholder (.elem t a cs)).1
    else flattenCellChildren p ctx fuel cs

/-- `flattenListContentWithDepth`: leading break, then the items. -/
def flattenListWithDepth (p : ConfluencePlugin) (ctx : Ctx) :
    Nat → Node → Bool → Nat → String
  | 0, _, _, _ => ""
  | fuel+1, listNode, ordered, depth =>
    "<br>" ++ flattenListItems p ctx fuel listNode.children ordered depth 1

/-- Item loop of `flattenListContentWithDepth` (non-`li` children are
skipped; the ordered-list index only advances on items). -/
def flattenListItems (p : ConfluencePlugin) (ctx : Ctx) :
    Nat → List Node → Bool → Nat → Nat → String
  | 0, _, _, _, _ => ""
  | _+1, [], _, _, _ => ""
  | fuel+1, li :: rest, ordered, depth, idx =>
    if li.tagIs "li" then
      String.join (List.replicate depth "&nbsp;&nbsp;") ++
        (if ordered then toString idx ++ ". " else "• ") ++
        flattenListItemChildren p ctx fuel li.children depth ++ "<br>" ++
        flattenListItems p ctx fuel rest ordered depth (idx+1)
    else flattenListItems p ctx fuel rest ordered depth idx

/-- `flattenListItemContent`: nested lists recurse one level deeper;
paragraphs and other elements flatten their children. -/
def flattenListItemChildren (p : ConfluencePlugin) (ctx : Ctx) :
    Nat → List Node → Nat → String
  | 0, _, _ => ""
  | _+1, [], _ => ""
  | fuel+1, .text s :: rest, depth => s ++ flattenListItemChildren p ctx fuel rest depth
  | fuel+1, .elem "ul" a cs :: rest, depth =>
    flattenListWithDepth p ctx fuel (.elem "ul" a cs) false (depth+1) ++
      flattenListItemChildren p ctx fuel rest depth
  | fuel+1, .elem "ol" a cs :: rest, depth =>
    flattenListWithDepth p ctx fuel (.elem "ol" a cs) true (depth+1) ++
      flattenListItemChildren p ctx fuel rest depth
  | fuel+1, .elem "p" _ cs :: rest, depth =>
    (if cs.isEmpty then "" else flattenCellChildren p ctx fuel cs) ++
      flattenListItemChildren p ctx fuel rest depth
  | fuel+1, .elem _ _ cs :: rest, depth =>
    flattenCellChildren p ctx fuel cs ++ flattenListItemChildren p ctx fuel rest depth

/-- `flattenTaskList`: leading break, then the tasks. -/
def flattenTaskListGo (p : ConfluencePlugin) (ctx : Ctx) : Nat → Node → String
  | 0, _ => ""
  | fuel+1, taskListNode => "<br>" ++ flattenTasks p ctx fuel taskListNode.children

/-- Task loop of `flattenTaskList` (non-`ac:task` children skipped). -/
def flattenTasks (p : ConfluencePlugin) (ctx : Ctx) : Nat → List Node → String
  | 0, _ => ""
  | _+1, [] => ""
  | fuel+1, task :: rest =>
    if task.tagIs "ac:task" then
      (match taskStatusBody p ctx fuel task.children "incomplete" "" with
       | (status, body) =>
         (if status = "complete" then "☑ " else "☐ ") ++ body ++ "<br>") ++
        flattenTasks p ctx fuel rest
    else flattenTasks p ctx fuel rest

/-- Status/body extraction of `flattenTaskList`: the last
`ac:task-status` (with a first child) and the last `ac:task-body` win. -/
def taskStatusBody (p : ConfluencePlugin) (ctx : Ctx) :
    Nat → List Node → String → String → String × String
  | 0, _, status, body => (status, body)
  | _+1, [], status, body => (status, body)
  | fuel+1, .elem "ac:task-status" _ (v :: _) :: rest, _, body =>
    taskStatusBody p ctx fuel rest v.data body
  | fuel+1, .elem "ac:task-body" _ cs :: rest, status, _ =>
    taskStatusBody p ctx fuel rest status (flattenCellChildren p ctx fuel cs)
  | fuel+1, _ :: rest, status, body => taskStatusBody p ctx fuel rest status body

end

mutual

/-- Number of nodes in a subtree. -/
def Node.size : Node → Nat
  | .text _ => 1
  | .elem _ _ cs => 1 + sizeNodes cs

/-- Number of nodes in a forest. -/
def sizeNodes : List Node → Nat
  | [] => 0
  | n :: rest => Node.size n + sizeNodes rest

end

/-- Fuel bound for the flattener: strictly more than the number of
nested calls any path through the mutual recursion can make on a
subtree of this size. -/
def flattenFuel (cell : Node) : Nat :=
  4 * cell.size + 4

/-- Go `strings.Fields`: maximal runs of non-whitespace characters. -/
def goFieldsGo : Nat → List Char → List (List Char)
  | 0, _ => []
  | _+1, [] => []
  | fuel+1, c :: tl =>
    if goIsSpace c then goFieldsGo fuel tl
    else (c :: tl.takeWhile (fun d => !goIsSpace d)) ::
      goFieldsGo fuel (tl.dropWhile (fun d => !goIsSpace d))

/-- Go `strings.Join(words, " ")`. -/
def joinSpace : List (List Char) → List Char
  | [] => []
  | [w] => w
  | w :: ws => w ++ ' ' :: joinSpace ws

/-- The cleanup `getCellHTMLContent` applies to the flattened content:
newlines become spaces, carriage returns are removed, and
`strings.Join(strings.Fields(content), " ")` collapses whitespace. -/
def cleanCellContent (content : String) : String :=
  ⟨joinSpace (goFieldsGo
    ((content.data.map (fun c => if c = '\n' then ' ' else c)).filter
      (fun c => c ≠ '\r')).length
    ((content.data.map (fun c => if c = '\n' then ' ' else c)).filter
      (fun c => c ≠ '\r')))⟩

/-- `getCellHTMLContent`: flatten the cell children and clean the
result to a single logical line. -/
def getCellHTMLContent (p : ConfluencePlugin) (ctx : Ctx) (cell : Node) : String :=
  cleanCellContent (flattenCellChildren p ctx (flattenFuel cell) cell.children)

/-! ## Table handling -/

/-- Tags that make a cell complex regardless of anything else. -/
def alwaysComplexTags : List String :=
  ["ul", "ol", "div", "blockquote", "pre", "table", "ac:task-list"]

/-- Block-level tags counted by `cellHasComplexContent`. -/
def blockTags : List String :=
  ["p", "h1", "h2", "h3", "h4", "h5", "h6"]

/-- Child loop of `cellHasComplexContent`, with the running
block-element count. -/
def cellComplexAux : List Node → Nat → Bool
  | [], _ => false
  | .text _ :: rest, k => cellComplexAux rest k
  | .elem t a cs :: rest, k =>
    if alwaysComplexTags.contains t then true
    else if blockTags.contains t then
      if k + 1 > 1 then true
      else if containsBrTags (.elem t a cs) then true
      else cellComplexAux rest (k+1)
    else if t = "br" then true
    else cellComplexAux rest k

/-- `cellHasComplexContent`. -/
def cellHasComplexContent (cell : Node) : Bool :=
  cellComplexAux cell.children 0

/-- Whitespace-only text node (the only kind of child the simple-cell
scan skips). -/
def isBlankText : Node → Bool
  | .text s => goTrimSpace s = ""
  | .elem _ _ _ => false

/-- First child that is not a whitespace-only text node. -/
def firstContentChild : List Node → Option Node
  | [] => none
  | n :: rest => if isBlankText n then firstContentChild rest else some n

/-- Content of one `td`/`th` cell: complex cells are flattened, simple
cells render only their first non-blank child, trimmed; empty and
`&nbsp;` cells become a single space. -/
def cellContentOf (p : ConfluencePlugin) (ctx : Ctx) (cell : Node) : String :=
  let content :=
    if cellHasComplexContent cell then getCellHTMLContent p ctx cell
    else
      goTrimSpace
        (match firstContentChild cell.children with
         | some fc => ctx.renderNodes fc
         | none => "")
  if content = "" ∨ content = "&nbsp;" then " " else content

/-- Cell loop of `handleTable` over one row's children: collects the
`td`/`th` cell contents and computes `hasOnlyHeaders` (no `td` seen)
and `hasSomeTd`. -/
def rowScan (p : ConfluencePlugin) (ctx : Ctx) : List Node → List String × Bool × Bool
  | [] => ([], true, false)
  | .text _ :: rest => rowScan p ctx rest
  | .elem t a cs :: rest =>
    match rowScan p ctx rest with
    | (row, hoh, hst) =>
      (if t = "td" ∨ t = "th" then cellContentOf p ctx (.elem t a cs) :: row else row,
       hoh && !(t = "td"), hst || (t = "td"))

/-- Row loop of `handleTable` over the tbody children: one entry per
`tr` with at least one cell, paired with its header-row flag
(`hasOnlyHeaders && !hasSomeTd`). -/
def extractRows (p : ConfluencePlugin) (ctx : Ctx) : List Node → List (List String × Bool)
  | [] => []
  | .elem "tr" _ cs :: rest =>
    match rowScan p ctx cs with
    | (row, hoh, hst) =>
      (if row ≠ [] then [(row, hoh && !hst)] else []) ++ extractRows p ctx rest
  | _ :: rest => extractRows p ctx rest

/-- First `tbody` among the direct children. -/
def findTbody : List Node → Option Node
  | [] => none
  | .elem "tbody" a cs :: _ => some (.elem "tbody" a cs)
  | _ :: rest => findTbody rest

/-- Maximum column count across the rows. -/
def maxColsOf (rows : List (List String)) : Nat :=
  rows.foldl (fun m r => max m r.length) 0

/-- Pad a row with single-space filler cells to the column count. -/
def padRow (maxCols : Nat) (r : List String) : List String :=
  r ++ List.replicate (maxCols - r.length) " "

/-- One emitted table row: `| c1 | c2 | … |` with a trailing newline. -/
def rowLine (row : List String) : String :=
  "| " ++ String.intercalate " | " row ++ " |\n"

/-- Dash cells of the separator line. -/
def sepCells : Nat → String
  | 0 => ""
  | k+1 => "---|" ++ sepCells k

/-- The separator line `|---|…|` with a trailing newline. -/
def sepLine (maxCols : Nat) : String :=
  "|" ++ sepCells maxCols ++ "\n"

/-- Write loop of `handleTable`: each row line, with the separator
inserted after index 0 when row 0 is a header row or the table has no
header row at all. -/
def renderRowsGo (i : Nat) (rows : List (List String)) (f0 hasHeader : Bool)
    (maxCols : Nat) : String :=
  match rows with
  | [] => ""
  | r :: rest =>
    rowLine r ++ (if i = 0 ∧ (f0 ∨ ¬hasHeader) then sepLine maxCols else "") ++
      renderRowsGo (i+1) rest f0 hasHeader maxCols

/-- `handleTable`: falls through when there is no tbody or no row with
cells; otherwise emits the padded markdown table and a final blank
line. -/
def handleTable (p : ConfluencePlugin) (ctx : Ctx) (n : Node) : String × RenderStatus :=
  match findTbody n.children with
  | none => ("", .tryNext)
  | some tb =>
    match extractRows p ctx tb.children with
    | [] => ("", .tryNext)
    | (r0, f0) :: rfs =>
      let rows := ((r0, f0) :: rfs).map Prod.fst
      let maxCols := maxColsOf rows
      let padded := rows.map (padRow maxCols)
      let hasHeader := (((r0, f0) :: rfs).map Prod.snd).any id
      (renderRowsGo 0 padded f0 hasHeader maxCols ++ "\n", .success)

/-! ## Page model and validation (`internal/confluence/model/page.go`,
`internal/converter/converter.go`) -/

/-- `ConfluenceAttachment` (the fields `Validate` inspects). -/
structure GoAttachment where
  id : String
  title : String
  mediaType : String
  fileSize : Int
  downloadLink : String

/-- `ConfluencePage` (the fields `ConvertPage` and `Validate` inspect;
`storageValue` is `Content.Storage.Value`). -/
structure GoPage where
  id : String
  title : String
  spaceKey : String
  storageValue : String
  attachments : List GoAttachment

/-- `ConfluenceAttachment.Validate`.  Its final check runs the standard
library's `url.Parse` on the download link and rejects the attachment
when parsing fails; `net/url` is outside this repository, so its
success test is kept abstract as the parameter `urlOk` (like the
html-to-markdown renderer).  Every statement about validation below is
proved for an arbitrary `urlOk`, in particular for the real parser's
acceptance condition. -/
def validateAttachment (urlOk : String → Bool) (a : GoAttachment) :
    Except String Unit :=
  if a.id = "" then .error "attachment ID cannot be empty"
  else if a.title = "" then .error "attachment title cannot be empty"
  else if a.mediaType = "" then .error "attachment media type cannot be empty"
  else if a.fileSize ≤ 0 then .error "attachment file size must be greater than 0"
  else if a.downloadLink = "" then .error "attachment download link cannot be empty"
  else if !urlOk a.downloadLink then .error "invalid download link"
  else .ok ()

/-- Attachment loop of `ConfluencePage.Validate`, with the index used
in the error message. -/
def validateAttachments (urlOk : String → Bool) :
    Nat → List GoAttachment → Except String Unit
  | _, [] => .ok ()
  | i, a :: rest =>
    match validateAttachment urlOk a with
    | .error e => .error ("invalid attachment at index " ++ toString i ++ ": " ++ e)
    | .ok _ => validateAttachments urlOk (i+1) rest

/-- `ConfluencePage.Validate`: empty ID, title, content or space key is
rejected, then every attachment is validated. -/
def validatePage (urlOk : String → Bool) (pg : GoPage) : Except String Unit :=
  if pg.id = "" then .error "page ID cannot be empty"
  else if pg.title = "" then .error "page title cannot be empty"
  else if pg.storageValue = "" then .error "page content cannot be empty"
  else if pg.spaceKey = "" then .error "space key cannot be empty"
  else validateAttachments urlOk 0 pg.attachments

/-- `ConvertPage` without a configured attachment resolver (the pure
conversion path): validation gates everything, then the page content is
converted.  `model.NewMarkdownDocument` is not under `src/`; modelled
from the spec (§6: conversion fails only on structurally invalid input)
as total, so the only error source is `Validate`.  The returned string
is the converted markdown content of the document. -/
def convertPageModel (urlOk : String → Bool)
    (conv : String → String × Option String) (pg : GoPage) :
    Except String String :=
  match validatePage urlOk pg with
  | .error e => .error ("invalid page: " ++ e)
  | .ok _ => .ok (convertHtml conv pg.storageValue).1

/-! ## Specification-side definitions

These definitions follow the words of the specification (not the code);
they exist only to be compared with the code-derived definitions
above. -/

mutual

/-- Existence of a node with one of the given tags at any depth of a
forest (used by the spec reading of complex-cell classification). -/
def specHasTagDeep (tags : List String) : Node → Bool
  | .text _ => false
  | .elem t _ cs => tags.contains t || specHasTagDeepList tags cs

def specHasTagDeepList (tags : List String) : List Node → Bool
  | [] => false
  | n :: rest => specHasTagDeep tags n || specHasTagDeepList tags rest

end

/-- Heading tags. -/
def headingTags : List String :=
  ["h1", "h2", "h3", "h4", "h5", "h6"]

/-- The specification's complex-cell classification (§4.3): "any list,
block-quote, nested table, preformatted block, or task list at any
depth; more than one block-level child (paragraph/heading); a heading
containing a line break; or any line-break element directly under the
cell". -/
def specCellComplex (children : List Node) : Bool :=
  specHasTagDeepList ["ul", "ol", "blockquote", "table", "pre", "ac:task-list"] children ||
  decide (1 < (children.filter (fun c =>
    match c with
    | .elem t _ _ => blockTags.contains t
    | .text _ => false)).length) ||
  children.any (fun c =>
    match c with
    | .elem t _ _ => headingTags.contains t && containsBrTags c
    | .text _ => false) ||
  children.any (fun c => c.tagIs "br")

/-- The macro names `handleMacro` dispatches specially. -/
def knownMacroNames : List String :=
  ["info", "warning", "note", "tip", "code", "noformat", "mermaid-macro",
   "expand", "toc", "details", "status", "children", "jira", "view-file", "anchor"]

/-- A child the user-mention scan of `handleLink` passes over: anything
that is not an `ri:user` element carrying a non-empty account id. -/
def notUserHit (c : Node) : Prop :=
  ∀ ua uc, c = .elem "ri:user" ua uc →
    findAttr ua "ri:account-id" = none ∨ findAttr ua "ri:account-id" = some ""

/-- The attachment defects `ConfluenceAttachment.Validate` rejects,
relative to the abstract `url.Parse` success test. -/
def badAttachment (urlOk : String → Bool) (a : GoAttachment) : Prop :=
  a.id = "" ∨ a.title = "" ∨ a.mediaType = "" ∨ a.fileSize ≤ 0 ∨
  a.downloadLink = "" ∨ urlOk a.downloadLink = false

/-- Element with a tag counted as a block element by
`cellHasComplexContent`. -/
def isBlockElem : Node → Bool
  | .elem t _ _ => blockTags.contains t
  | .text _ => false

/-- Element with a tag `cellHasComplexContent` treats as always
complex. -/
def isAlwaysComplex : Node → Bool
  | .elem t _ _ => alwaysComplexTags.contains t
  | .text _ => false

/-- C3 (amended): a table cell is classified complex iff one of its
*direct* children is a `ul`, `ol`, `div`, `blockquote`, `pre`, `table`
or `ac:task-list` element; or more than one direct child is a
paragraph/heading; or some direct paragraph *or* heading child contains
a line break at any depth; or some direct child is a `br` — deeper
structure alone does not trigger complexity.  Simple cells render only
their first non-blank child (the first child that is not a
whitespace-only text node). -/
def noTwoSpaces : List Char → Prop
  | a :: b :: rest => ¬(goIsSpace a = true ∧ goIsSpace b = true) ∧ noTwoSpaces (b :: rest)
  | _ => True

def headNonspaceOrNil : List Char → Prop
  | [] => True
  | c :: _ => goIsSpace c = false

theorem matchNumMarker_spec (cs m r : List Char)
    (h : matchNumMarker cs = some (m, r)) : cs = m ++ r ∧ m ≠ [] := by
  unfold matchNumMarker at h
  split at h
  · exact absurd h (by simp)
  · split at h
    · split at h
      · simp only [Option.some.injEq, Prod.mk.injEq] at h
        obtain ⟨hm, hr⟩ := h
        subst hm hr
        rename_i hne hdrop _
        refine ⟨?_, by simp⟩
        conv_lhs => rw [← List.takeWhile_append_dropWhile (p := Char.isDigit) (l := cs)]
        rw [hdrop]
        simp
      · exact absurd h (by simp)
    · exact absurd h (by simp)

theorem matchMarker_spec (cs m r : List Char)
    (h : matchMarker cs = some (m, r)) : cs = m ++ r ∧ m ≠ [] := by
  unfold matchMarker at h
  split at h
  · split at h
    · simp only [Option.some.injEq, Prod.mk.injEq] at h
      obtain ⟨hm, hr⟩ := h
      subst hm hr
      simp
    · exact matchNumMarker_spec _ _ _ h
  · exact matchNumMarker_spec _ _ _ h

theorem getJGo_le (l : List Char) : ∀ (j len : Nat) (acc : Option Nat) (i : Nat),
    (∀ i0, acc = some i0 → i0 + 3 ≤ len) → getJGo l j len acc = some i →
    i + 3 ≤ len := by
  induction l with
  | nil =>
    intro j len acc i hacc h
    exact hacc i h
  | cons c tl ih =>
    intro j len acc i hacc h
    refine ih (j+1) len _ i ?_ h
    intro i0 h0
    split at h0
    · rename_i hc
      cases h0
      exact hc.2
    · exact hacc i0 h0

theorem getJ_le (run : List Char) (j : Nat) (h : getJ run = some j) :
    j + 3 ≤ run.length :=
  getJGo_le run 0 run.length none j (by intro i0 h0; cases h0) h

theorem matchHereNested_spec (cs m repl rest : List Char)
    (h : matchHereNested cs = some (m, repl, rest)) :
    cs = m ++ rest ∧ repl.length < m.length := by
  unfold matchHereNested at h
  split at h
  case h_2 => exact absurd h (by simp)
  rename_i tl
  split at h
  · exact absurd h (by simp)
  rename_i m1 r1 hm1
  split at h
  case h_2 => exact absurd h (by simp)
  rename_i r2 hdrop1
  split at h
  · exact absurd h (by simp)
  rename_i m2 r3 hm2
  split at h
  · exact absurd h (by simp)
  rename_i j hj
  simp only [Option.some.injEq] at h
  have hj3 := getJ_le _ _ hj
  obtain ⟨htl, -⟩ := matchMarker_spec _ _ _ hm1
  obtain ⟨hr2, -⟩ := matchMarker_spec _ _ _ hm2
  unfold assembleNested at h
  simp only [Prod.mk.injEq] at h
  obtain ⟨hm, hrepl, hrest⟩ := h
  subst hm hrepl hrest
  constructor
  · conv_lhs =>
      rw [← List.takeWhile_append_dropWhile (p := isRe2Space) (l := tl), htl,
        ← List.takeWhile_append_dropWhile (p := fun c => c != '\n') (l := r1), hdrop1,
        ← List.takeWhile_append_dropWhile (p := isRe2Space) (l := r2), hr2]
    rw [← List.append_assoc (List.take (j + 1) _),
      List.take_append_drop (j + 1) (List.takeWhile isRe2Space r2)]
    simp [List.append_assoc]
  · simp only [List.length_cons, List.length_append, List.length_take, List.length_drop]
    omega

theorem nestedScan_length : ∀ (fuel : Nat) (cs : List Char),
    (nestedScan fuel cs).length ≤ cs.length := by
  intro fuel
  induction fuel with
  | zero => intro cs; simp [nestedScan]
  | succ fuel ih =>
    intro cs
    match cs with
    | [] => simp [nestedScan]
    | c :: tl =>
      rw [nestedScan]
      split
      · rename_i m repl rest hmatch
        obtain ⟨hcs, hlt⟩ := matchHereNested_spec _ _ _ _ hmatch
        have := ih rest
        simp only [List.length_append]
        rw [hcs]
        simp only [List.length_append]
        omega
      · simpa using ih tl

theorem nestedScan_eq_or_lt : ∀ (fuel : Nat) (cs : List Char),
    nestedScan fuel cs = cs ∨ (nestedScan fuel cs).length < cs.length := by
  intro fuel
  induction fuel with
  | zero => intro cs; left; simp [nestedScan]
  | succ fuel ih =>
    intro cs
    match cs with
    | [] => left; simp [nestedScan]
    | c :: tl =>
      rw [nestedScan]
      split
      · rename_i m repl rest hmatch
        obtain ⟨hcs, hlt⟩ := matchHereNested_spec _ _ _ _ hmatch
        right
        have := nestedScan_length fuel rest
        simp only [List.length_append]
        rw [hcs]
        simp only [List.length_append]
        omega
      · rcases ih tl with heq | hlt
        · left; rw [heq]
        · right; simpa using hlt

theorem nestedStep_lt_of_ne (s : String) (h : nestedStep s ≠ s) :
    (nestedStep s).length < s.length := by
  rcases nestedScan_eq_or_lt s.data.length s.data with heq | hlt
  · exact absurd (show nestedStep s = s by unfold nestedStep; rw [heq]) h
  · exact hlt

theorem fixNestedGo_fix : ∀ (fuel : Nat) (s : String), s.length < fuel →
    nestedStep (fixNestedGo fuel s) = fixNestedGo fuel s := by
  intro fuel
  induction fuel with
  | zero => intro s h; omega
  | succ fuel ih =>
    intro s hs
    rw [fixNestedGo]
    split
    · rename_i heq
      rw [heq, heq]
    · rename_i hne
      have hlt := nestedStep_lt_of_ne s hne
      exact ih (nestedStep s) (by omega)

/-! ## General helper lemmas -/

theorem strDataAppend (s t : String) : (s ++ t).data = s.data ++ t.data :=
  rfl

theorem strExt (a b : String) (h : a.data = b.data) : a = b := by
  cases a
  cases b
  cases h
  rfl

theorem scanUserChildren_skip (p : ConfluencePlugin) :
    ∀ (pre rest : List Node), (∀ c ∈ pre, notUserHit c) →
    scanUserChildren p (pre ++ rest) = scanUserChildren p rest := by
  intro pre
  induction pre with
  | nil => intro rest h; rfl
  | cons c tl ih =>
    intro rest h
    have hc := h c (by simp)
    have htl : ∀ x ∈ tl, notUserHit x := fun x hx => h x (by simp [hx])
    match c with
    | .text s =>
      rw [List.cons_append]
      show scanUserChildren p (tl ++ rest) = _
      exact ih rest htl
    | .elem t a cs =>
      rw [List.cons_append]
      show (if t = "ri:user" then _ else scanUserChildren p (tl ++ rest)) = _
      by_cases ht : t = "ri:user"
      · subst ht
        rw [if_pos rfl]
        rcases hc a cs rfl with hnone | hempty
        · rw [hnone]
          exact ih rest htl
        · rw [hempty]
          simp only [ne_eq, not_true_eq_false, if_false]
          exact ih rest htl
      · rw [if_neg ht]
        exact ih rest htl

/-! ## Claim theorems -/

/-- C10: the raw-markup conversion entry point `ConvertHTML` returns a
nil error for every input string: an error from the underlying
HTML-to-markdown conversion is printed and discarded rather than
propagated, so the operation always yields a (possibly empty)
post-processed markdown string. -/
theorem c10_convert_html_nil_error (conv : String → String × Option String)
    (html : String) : (convertHtml conv html).2 = none :=
  rfl

/-- C2 counterexample: `postprocessMarkdown` is not idempotent.  On
this input the first pass rewrites a Confluence link whose target spans
a newline, splicing two lines together; only the second pass can then
apply the nested-list spacing fix, so applying the normalizer to its
own output changes the string again. -/
theorem c2_counterexample :
    postprocessMarkdown (postprocessMarkdown
      "x\n- a [y](/wiki/spaces/s/pages/1/f\nb)\n\n  - c") ≠
    postprocessMarkdown "x\n- a [y](/wiki/spaces/s/pages/1/f\nb)\n\n  - c" := by
  decide

/-- C2 (amended): `fixNestedListSpacing` returns a fixed point of its
single-pass rewrite — one further pass of the nested-list-spacing
pattern leaves its result unchanged.  (The full `postprocessMarkdown`
pipeline is not idempotent; see the counterexample.) -/
theorem c2_fixNested_fixed_point (s : String) :
    nestedStep (fixNestedListSpacing s) = fixNestedListSpacing s :=
  fixNestedGo_fix (s.length + 1) s (Nat.lt_succ_self _)

/-- C6: for every structured-macro node whose macro name is outside the
known handler set, `handleMacro` emits the literal
`<!-- Unsupported macro: <name> -->` marker containing that exact name
and returns `Success` — it never drops the node. -/
theorem c6_unsupported_macro_marker (p : ConfluencePlugin) (ctx : Ctx)
    (tag : String) (attrs : List (String × String)) (children : List Node)
    (name : String) (hattr : findAttr attrs "ac:name" = some name)
    (hne : name ≠ "") (hnotin : name ∉ knownMacroNames) :
    handleMacro p ctx (.elem tag attrs children) =
      ("<!-- Unsupported macro: " ++ name ++ " -->", .success) := by
  unfold handleMacro
  simp only [Node.attrOf, Node.attrs, hattr, Option.getD_some]
  rw [if_neg hne]
  split
  all_goals first
  | rfl
  | (exact absurd (by decide) hnotin)

/-- C6 witness: a concrete unknown macro name. -/
theorem c6_unsupported_macro_marker_witness :
    handleMacro {} ⟨fun _ => ""⟩
      (.elem "ac:structured-macro" [("ac:name", "foobar")] []) =
      ("<!-- Unsupported macro: foobar -->", .success) :=
  c6_unsupported_macro_marker {} ⟨fun _ => ""⟩ "ac:structured-macro" _ _ "foobar"
    rfl (by decide) (by decide)

/-- C9: for a user-mention link node (an `ac:link` with no anchor
attribute whose first `ri:user` child carries a non-empty account id),
a cache miss renders the ` @user(<id>) ` fallback — so the output
contains exactly `@user(<id>)` — and a cache hit renders
` @<DisplayName> ` instead. -/
theorem c9_mention_fallback (p : ConfluencePlugin)
    (attrs uattrs : List (String × String)) (pre post ucs : List Node)
    (id0 : String) (hanchor : findAttr attrs "ac:anchor" = none)
    (hpre : ∀ c ∈ pre, notUserHit c)
    (hid : findAttr uattrs "ri:account-id" = some id0) (hne : id0 ≠ "") :
    (p.userCache.lookup id0 = none →
      handleLink p (.elem "ac:link" attrs (pre ++ .elem "ri:user" uattrs ucs :: post)) =
        (" @user(" ++ id0 ++ ") ", .tryNext) ∧
      ∃ a b, (handleLink p (.elem "ac:link" attrs
          (pre ++ .elem "ri:user" uattrs ucs :: post))).1 =
        a ++ ("@user(" ++ id0 ++ ")") ++ b) ∧
    (∀ d, p.userCache.lookup id0 = some d →
      handleLink p (.elem "ac:link" attrs (pre ++ .elem "ri:user" uattrs ucs :: post)) =
        (" @" ++ d ++ " ", .tryNext)) := by
  have hmain : handleLink p
      (.elem "ac:link" attrs (pre ++ .elem "ri:user" uattrs ucs :: post)) =
      scanUserChildren p (.elem "ri:user" uattrs ucs :: post) := by
    unfold handleLink
    have hanch : handleAnchorLink
        (.elem "ac:link" attrs (pre ++ .elem "ri:user" uattrs ucs :: post)) =
        ("", .tryNext) := by
      unfold handleAnchorLink
      have hfind : findNodeP (fun m => m.tagIs "ac:link")
          (.elem "ac:link" attrs (pre ++ .elem "ri:user" uattrs ucs :: post)) =
          some (.elem "ac:link" attrs (pre ++ .elem "ri:user" uattrs ucs :: post)) := by
        unfold findNodeP
        simp [Node.tagIs]
      rw [hfind]
      show (match Node.attrOf _ "ac:anchor" with
        | some anchor => _
        | none => ("", RenderStatus.tryNext)) = _
      simp only [Node.attrOf, Node.attrs, hanchor]
    rw [hanch]
    show scanUserChildren p (Node.children _) = _
    simp only [Node.children]
    exact scanUserChildren_skip p pre _ hpre
  rw [hmain]
  have hstep : scanUserChildren p (.elem "ri:user" uattrs ucs :: post) =
      (match p.userCache.lookup id0 with
       | some d => (" @" ++ d ++ " ", RenderStatus.tryNext)
       | none => (" @user(" ++ id0 ++ ") ", RenderStatus.tryNext)) := by
    show (if "ri:user" = "ri:user" then _ else _) = _
    rw [if_pos rfl, hid]
    show (if id0 ≠ "" then
        (match p.userCache.lookup id0 with
         | some d => (" @" ++ d ++ " ", RenderStatus.tryNext)
         | none => (" @user(" ++ id0 ++ ") ", RenderStatus.tryNext))
      else scanUserChildren p post) = _
    rw [if_pos hne]
  constructor
  · intro hnone
    rw [hstep, hnone]
    refine ⟨rfl, " ", " ", ?_⟩
    show " @user(" ++ id0 ++ ") " = " " ++ ("@user(" ++ id0 ++ ")") ++ " "
    apply strExt
    simp only [strDataAppend, List.append_assoc]
    simp
  · intro d hd
    rw [hstep, hd]

/-- C9 witness: a mention of account id `abc123` with an empty cache
renders the ` @user(abc123) ` fallback; with a cached display name it
renders ` @Jane Doe `. -/
theorem c9_mention_fallback_witness :
    (handleLink {} (.elem "ac:link" []
        [.elem "ri:user" [("ri:account-id", "abc123")] []]) =
      (" @user(abc123) ", .tryNext)) ∧
    (handleLink { userCache := [("abc123", "Jane Doe")] } (.elem "ac:link" []
        [.elem "ri:user" [("ri:account-id", "abc123")] []]) =
      (" @Jane Doe ", .tryNext)) := by
  constructor
  · exact ((c9_mention_fallback {} [] [("ri:account-id", "abc123")] [] [] []
      "abc123" rfl (by intro c hc; cases hc) rfl (by decide)).1 rfl).1
  · exact (c9_mention_fallback { userCache := [("abc123", "Jane Doe")] }
      [] [("ri:account-id", "abc123")] [] [] [] "abc123" rfl
      (by intro c hc; cases hc) rfl (by decide)).2 "Jane Doe" rfl

theorem validateAttachment_err_iff (urlOk : String → Bool) (a : GoAttachment) :
    (∃ e, validateAttachment urlOk a = .error e) ↔ badAttachment urlOk a := by
  unfold validateAttachment badAttachment
  split_ifs <;> simp_all

theorem validateAttachments_err_iff (urlOk : String → Bool) :
    ∀ (i : Nat) (l : List GoAttachment),
    (∃ e, validateAttachments urlOk i l = .error e) ↔
      ∃ a ∈ l, badAttachment urlOk a := by
  intro i l
  induction l generalizing i with
  | nil => simp [validateAttachments]
  | cons a rest ih =>
    unfold validateAttachments
    constructor
    · rintro ⟨e, he⟩
      split at he
      · rename_i e0 herr
        exact ⟨a, by simp, (validateAttachment_err_iff urlOk a).mp ⟨e0, herr⟩⟩
      · obtain ⟨b, hb, hbad⟩ := (ih (i+1)).mp ⟨e, he⟩
        exact ⟨b, by simp [hb], hbad⟩
    · rintro ⟨b, hb, hbad⟩
      rcases List.mem_cons.mp hb with rfl | hbrest
      · obtain ⟨e0, he0⟩ := (validateAttachment_err_iff urlOk b).mpr hbad
        rw [he0]
        exact ⟨_, rfl⟩
      · match hva : validateAttachment urlOk a with
        | .error e0 => exact ⟨_, rfl⟩
        | .ok _ => exact (ih (i+1)).mpr ⟨b, hbrest, hbad⟩

theorem validatePage_err_iff (urlOk : String → Bool) (pg : GoPage) :
    (∃ e, validatePage urlOk pg = .error e) ↔
    (pg.id = "" ∨ pg.title = "" ∨ pg.storageValue = "" ∨ pg.spaceKey = "" ∨
     ∃ a ∈ pg.attachments, badAttachment urlOk a) := by
  unfold validatePage
  split_ifs <;> simp_all [validateAttachments_err_iff urlOk 0 pg.attachments]

/-- C8 (amended): the pure conversion path of `ConvertPage` fails
exactly when the page is structurally invalid — empty page identifier,
empty title, empty content, empty space key, or an invalid attachment,
rejected by `Validate` before any rendering begins — and never because
of unsupported markup, which the converters degrade to visible markers
instead.  Proved for an arbitrary `url.Parse` acceptance test `urlOk`
(the standard library parser is outside this repository), so it holds
in particular for the real one. -/
theorem c8_convert_page_errors (urlOk : String → Bool)
    (conv : String → String × Option String) (pg : GoPage) :
    (∃ e, convertPageModel urlOk conv pg = .error e) ↔
    (pg.id = "" ∨ pg.title = "" ∨ pg.storageValue = "" ∨ pg.spaceKey = "" ∨
     ∃ a ∈ pg.attachments, badAttachment urlOk a) := by
  rw [← validatePage_err_iff]
  unfold convertPageModel
  constructor
  · rintro ⟨e, he⟩
    split at he
    · rename_i e0 h0
      exact ⟨e0, h0⟩
    · cases he
  · rintro ⟨e, he⟩
    rw [he]
    exact ⟨_, rfl⟩

/-- C8 counterexample: a page whose identifier, content and space key
are all non-empty still fails conversion, because its title is empty
(the `url.Parse` test, instantiated here with the constantly-accepting
predicate, is irrelevant: the page has no attachments, and validation
rejects the title before reaching them) — so conversion does not fail
*exactly* on the three conditions the claim lists. -/
theorem c8_counterexample :
    (convertPageModel (fun _ => true) (fun s => (s, none))
        ⟨"123", "", "SP", "<p>x</p>", []⟩ =
      .error "invalid page: page title cannot be empty") ∧
    ("123" ≠ "" ∧ "<p>x</p>" ≠ "" ∧ "SP" ≠ "") :=
  ⟨rfl, by decide⟩

theorem cellComplexAux_iff : ∀ (children : List Node) (k : Nat), k ≤ 1 →
    (cellComplexAux children k = true ↔
      ((∃ c ∈ children, isAlwaysComplex c = true) ∨
       1 < k + (children.filter isBlockElem).length ∨
       (∃ c ∈ children, isBlockElem c = true ∧ containsBrTags c = true) ∨
       (∃ c ∈ children, c.tagIs "br" = true))) := by
  intro children
  induction children with
  | nil =>
    intro k hk
    simp only [cellComplexAux, List.filter_nil, List.length_nil]
    simp
    omega
  | cons c rest ih =>
    intro k hk
    match c with
    | .text s =>
      show (cellComplexAux rest k = true ↔ _)
      rw [ih k hk]
      simp [isBlockElem, isAlwaysComplex, Node.tagIs, List.filter_cons]
    | .elem t a cs =>
      show ((if alwaysComplexTags.contains t then true
        else if blockTags.contains t then
          if k + 1 > 1 then true
          else if containsBrTags (.elem t a cs) then true
          else cellComplexAux rest (k+1)
        else if t = "br" then true
        else cellComplexAux rest k) = true ↔ _)
      by_cases hacm : t ∈ alwaysComplexTags
      · have hac : alwaysComplexTags.contains t = true := by simpa using hacm
        simp only [hac, if_true, true_iff]
        exact Or.inl ⟨.elem t a cs, by simp, by simp [isAlwaysComplex, hacm]⟩
      · have hac : alwaysComplexTags.contains t = false := by simpa using hacm
        rw [hac, if_neg (by simp)]
        have hcAlways : isAlwaysComplex (Node.elem t a cs) = false := by
          simp [isAlwaysComplex, hacm]
        by_cases hbm : t ∈ blockTags
        · have hb : blockTags.contains t = true := by simpa using hbm
          have hcBlock : isBlockElem (Node.elem t a cs) = true := by
            simp [isBlockElem, hbm]
          have hnotbr : t ≠ "br" := by
            intro hEq
            subst hEq
            simp [blockTags] at hbm
          rw [hb, if_pos (by simp)]
          by_cases hk1 : k + 1 > 1
          · rw [if_pos hk1]
            have hcount : 1 < k + ((Node.elem t a cs :: rest).filter isBlockElem).length := by
              rw [List.filter_cons]
              simp only [hcBlock, if_true, List.length_cons]
              omega
            simp only [true_iff]
            exact Or.inr (Or.inl hcount)
          · rw [if_neg hk1]
            have hk0 : k = 0 := by omega
            subst hk0
            by_cases hbr : containsBrTags (.elem t a cs) = true
            · rw [if_pos hbr]
              simp only [true_iff]
              exact Or.inr (Or.inr (Or.inl ⟨.elem t a cs, by simp, hcBlock, hbr⟩))
            · rw [if_neg hbr]
              rw [ih 1 (by omega)]
              rw [List.filter_cons]
              simp only [hcBlock, if_true, List.length_cons]
              constructor
              · rintro (⟨d, hd, hda⟩ | hcount | ⟨d, hd, hdb, hdbr⟩ | ⟨d, hd, hdbr⟩)
                · exact Or.inl ⟨d, by simp [hd], hda⟩
                · exact Or.inr (Or.inl (by omega))
                · exact Or.inr (Or.inr (Or.inl ⟨d, by simp [hd], hdb, hdbr⟩))
                · exact Or.inr (Or.inr (Or.inr ⟨d, by simp [hd], hdbr⟩))
              · rintro (⟨d, hd, hda⟩ | hcount | ⟨d, hd, hdb, hdbr⟩ | ⟨d, hd, hdbr⟩)
                · rcases List.mem_cons.mp hd with rfl | hdr
                  · exact absurd hda (by simp [hcAlways])
                  · exact Or.inl ⟨d, hdr, hda⟩
                · exact Or.inr (Or.inl (by omega))
                · rcases List.mem_cons.mp hd with rfl | hdr
                  · exact absurd hdbr hbr
                  · exact Or.inr (Or.inr (Or.inl ⟨d, hdr, hdb, hdbr⟩))
                · rcases List.mem_cons.mp hd with rfl | hdr
                  · simp only [Node.tagIs, decide_eq_true_eq] at hdbr
                    exact absurd hdbr hnotbr
                  · exact Or.inr (Or.inr (Or.inr ⟨d, hdr, hdbr⟩))
        · have hb : blockTags.contains t = false := by simpa using hbm
          have hcBlock : isBlockElem (Node.elem t a cs) = false := by
            simp [isBlockElem, hbm]
          rw [hb, if_neg (by simp)]
          by_cases hbr : t = "br"
          · rw [if_pos hbr]
            subst hbr
            simp only [true_iff]
            exact Or.inr (Or.inr (Or.inr ⟨.elem "br" a cs, by simp, by simp [Node.tagIs]⟩))
          · rw [if_neg hbr]
            rw [ih k hk]
            rw [List.filter_cons]
            simp only [hcBlock, if_false]
            constructor
            · rintro (⟨d, hd, hda⟩ | hcount | ⟨d, hd, hdb, hdbr⟩ | ⟨d, hd, hdbr⟩)
              · exact Or.inl ⟨d, by simp [hd], hda⟩
              · exact Or.inr (Or.inl hcount)
              · exact Or.inr (Or.inr (Or.inl ⟨d, by simp [hd], hdb, hdbr⟩))
              · exact Or.inr (Or.inr (Or.inr ⟨d, by simp [hd], hdbr⟩))
            · rintro (⟨d, hd, hda⟩ | hcount | ⟨d, hd, hdb, hdbr⟩ | ⟨d, hd, hdbr⟩)
              · rcases List.mem_cons.mp hd with rfl | hdr
                · exact absurd hda (by simp [hcAlways])
                · exact Or.inl ⟨d, hdr, hda⟩
              · exact Or.inr (Or.inl hcount)
              · rcases List.mem_cons.mp hd with rfl | hdr
                · exact absurd hdb (by simp [hcBlock])
                · exact Or.inr (Or.inr (Or.inl ⟨d, hdr, hdb, hdbr⟩))
              · rcases List.mem_cons.mp hd with rfl | hdr
                · simp only [Node.tagIs, decide_eq_true_eq] at hdbr
                  exact absurd hdbr hbr
                · exact Or.inr (Or.inr (Or.inr ⟨d, hdr, hdbr⟩))

theorem firstContentChild_eq (children : List Node) :
    firstContentChild children = (children.dropWhile isBlankText).head? := by
  induction children with
  | nil => rfl
  | cons c rest ih =>
    show (if isBlankText c then firstContentChild rest else some c) = _
    rw [List.dropWhile_cons]
    by_cases hb : isBlankText c = true
    · rw [if_pos hb, if_pos hb]
      exact ih
    · rw [if_neg hb, if_neg hb]
      rfl

theorem c3_cell_classification (tag : String) (attrs : List (String × String))
    (children : List Node) :
    (cellHasComplexContent (.elem tag attrs children) = true ↔
      ((∃ c ∈ children, isAlwaysComplex c = true) ∨
       1 < (children.filter isBlockElem).length ∨
       (∃ c ∈ children, isBlockElem c = true ∧ containsBrTags c = true) ∨
       (∃ c ∈ children, c.tagIs "br" = true))) ∧
    firstContentChild children = (children.dropWhile isBlankText).head? := by
  constructor
  · have h := cellComplexAux_iff children 0 (by omega)
    simpa using h
  · exact firstContentChild_eq children

/-- C3 counterexample: a cell whose only child is an (empty) `div` is
classified complex by the code, although it contains no list,
block-quote, nested table, preformatted block or task list at any
depth, has at most one block-level child, no heading, and no line
break — so the claimed "if and only if" fails. -/
theorem c3_counterexample :
    cellHasComplexContent (.elem "td" [] [.elem "div" [] []]) = true ∧
    specCellComplex [.elem "div" [] []] = false := by
  decide

theorem rowScan_flags (p : ConfluencePlugin) (ctx : Ctx) :
    ∀ children : List Node,
    (rowScan p ctx children).2.1 = children.all (fun c => !(c.tagIs "td")) ∧
    (rowScan p ctx children).2.2 = children.any (fun c => c.tagIs "td") := by
  intro children
  induction children with
  | nil => exact ⟨rfl, rfl⟩
  | cons c rest ih =>
    match c with
    | .text s =>
      show ((rowScan p ctx rest).2.1 = _ ∧ (rowScan p ctx rest).2.2 = _)
      simp only [List.all_cons, List.any_cons, Node.tagIs]
      simpa using ih
    | .elem t a cs =>
      have hrw : rowScan p ctx (.elem t a cs :: rest) =
          (match rowScan p ctx rest with
           | (row, hoh, hst) =>
             (if t = "td" ∨ t = "th" then cellContentOf p ctx (.elem t a cs) :: row else row,
              hoh && !(t = "td"), hst || (t = "td"))) := rfl
      rw [hrw]
      obtain ⟨h1, h2⟩ := ih
      match hr : rowScan p ctx rest with
      | (row, hoh, hst) =>
        rw [hr] at h1 h2
        simp only [List.all_cons, List.any_cons, Node.tagIs]
        constructor
        · simp only at h1
          rw [h1]
          exact Bool.and_comm _ _
        · simp only at h2
          rw [h2]
          exact Bool.or_comm _ _

/-- C4: a row with at least one `th`/`td` cell is classified as a
header row iff every such cell is a `th` and none is a `td` (the
header flag is `hasOnlyHeaders && !hasSomeTd`); in particular a row
mixing a `th` and a `td` is a data row, while a row of two `th` cells
is a header row. -/
theorem c4_header_row_iff (p : ConfluencePlugin) (ctx : Ctx)
    (children : List Node)
    (_hcell : ∃ c ∈ children, (c.tagIs "td" || c.tagIs "th") = true) :
    (((rowScan p ctx children).2.1 && !(rowScan p ctx children).2.2) = true ↔
      ∀ c ∈ children, (c.tagIs "td" || c.tagIs "th") = true →
        c.tagIs "th" = true) := by
  obtain ⟨h1, h2⟩ := rowScan_flags p ctx children
  rw [h1, h2]
  simp only [Bool.and_eq_true, List.all_eq_true, Bool.not_eq_true',
    List.any_eq_false, Bool.or_eq_true]
  constructor
  · rintro ⟨hall, -⟩ c hc hcth
    rcases hcth with htd | hth
    · exact absurd htd (by simpa using hall c hc)
    · exact hth
  · intro hforall
    have hnotd : ∀ c ∈ children, c.tagIs "td" = false := by
      intro c hc
      by_contra hne
      have htd : c.tagIs "td" = true := by
        cases h : c.tagIs "td"
        · exact absurd h hne
        · rfl
      have hth := hforall c hc (Or.inl htd)
      match c with
      | .text s => simp [Node.tagIs] at htd
      | .elem tg a cs =>
        simp only [Node.tagIs, decide_eq_true_eq] at htd hth
        subst htd
        exact absurd hth (by decide)
    constructor
    · intro c hc
      simpa using hnotd c hc
    · intro c hc
      simp [hnotd c hc]

/-- C4 witness: the tie-break rows — one `th` plus one `td` is a data
row, two `th` cells are a header row. -/
theorem c4_header_row_iff_witness :
    ((rowScan {} ⟨fun _ => ""⟩
        [.elem "th" [] [.text "a"], .elem "td" [] [.text "b"]]).2.1 &&
      !(rowScan {} ⟨fun _ => ""⟩
        [.elem "th" [] [.text "a"], .elem "td" [] [.text "b"]]).2.2) = false ∧
    ((rowScan {} ⟨fun _ => ""⟩
        [.elem "th" [] [.text "a"], .elem "th" [] [.text "b"]]).2.1 &&
      !(rowScan {} ⟨fun _ => ""⟩
        [.elem "th" [] [.text "a"], .elem "th" [] [.text "b"]]).2.2) = true := by
  constructor
  · have h := c4_header_row_iff {} ⟨fun _ => ""⟩
      [.elem "th" [] [.text "a"], .elem "td" [] [.text "b"]]
      ⟨.elem "th" [] [.text "a"], by simp, by decide⟩
    rw [Bool.eq_false_iff]
    intro htrue
    exact absurd (h.mp htrue) (by decide)
  · exact (c4_header_row_iff {} ⟨fun _ => ""⟩
      [.elem "th" [] [.text "a"], .elem "th" [] [.text "b"]]
      ⟨.elem "th" [] [.text "a"], by simp, by decide⟩).mpr (by decide)

theorem goFieldsGo_sound : ∀ (fuel : Nat) (cs : List Char) (w : List Char),
    w ∈ goFieldsGo fuel cs → w ≠ [] ∧ ∀ c ∈ w, goIsSpace c = false := by
  intro fuel
  induction fuel with
  | zero => intro cs w hw; simp [goFieldsGo] at hw
  | succ fuel ih =>
    intro cs w hw
    match cs with
    | [] => simp [goFieldsGo] at hw
    | c :: tl =>
      rw [goFieldsGo] at hw
      split at hw
      · exact ih tl w hw
      · rename_i hsp
        rcases List.mem_cons.mp hw with rfl | hrest
        · refine ⟨by simp, ?_⟩
          intro d hd
          rcases List.mem_cons.mp hd with rfl | htw
          · simpa using hsp
          · have := List.mem_takeWhile_imp htw
            simpa using this
        · exact ih _ w hrest

theorem noTwoSpaces_cons (a : Char) (l : List Char) (ha : goIsSpace a = false)
    (hl : noTwoSpaces l) : noTwoSpaces (a :: l) := by
  match l with
  | [] => trivial
  | b :: rest => exact ⟨by simp [ha], hl⟩

theorem noTwoSpaces_append_left (w x : List Char)
    (hw : ∀ c ∈ w, goIsSpace c = false) (hx : noTwoSpaces x) :
    noTwoSpaces (w ++ x) := by
  induction w with
  | nil => simpa using hx
  | cons a w ih =>
    rw [List.cons_append]
    refine noTwoSpaces_cons a _ (hw a (by simp)) ?_
    exact ih (fun c hc => hw c (by simp [hc]))

theorem noTwoSpaces_space_cons (t : List Char) (hh : headNonspaceOrNil t)
    (ht : noTwoSpaces t) : noTwoSpaces (' ' :: t) := by
  match t with
  | [] => trivial
  | c :: rest =>
    refine ⟨?_, ht⟩
    rintro ⟨-, hcs⟩
    rw [headNonspaceOrNil] at hh
    rw [hh] at hcs
    cases hcs

theorem joinSpace_props : ∀ ws : List (List Char),
    (∀ w ∈ ws, w ≠ [] ∧ ∀ c ∈ w, goIsSpace c = false) →
    noTwoSpaces (joinSpace ws) ∧
    (∀ c ∈ joinSpace ws, c = ' ' ∨ goIsSpace c = false) ∧
    headNonspaceOrNil (joinSpace ws) := by
  intro ws
  induction ws with
  | nil => intro _; exact ⟨trivial, by simp [joinSpace], trivial⟩
  | cons w rest ih =>
    intro hws
    obtain ⟨hwne, hwns⟩ := hws w (by simp)
    have hrest : ∀ v ∈ rest, v ≠ [] ∧ ∀ c ∈ v, goIsSpace c = false :=
      fun v hv => hws v (by simp [hv])
    match rest with
    | [] =>
      refine ⟨?_, ?_, ?_⟩
      · show noTwoSpaces w
        have h := noTwoSpaces_append_left w [] hwns trivial
        simpa using h
      · intro c hc
        exact Or.inr (hwns c (by simpa [joinSpace] using hc))
      · show headNonspaceOrNil w
        match w with
        | [] => exact absurd rfl hwne
        | c :: _ => exact hwns c (by simp)
    | w2 :: t =>
      obtain ⟨ihnts, ihchars, ihhead⟩ := ih hrest
      have hjoin : joinSpace (w :: w2 :: t) = w ++ ' ' :: joinSpace (w2 :: t) := rfl
      rw [hjoin]
      refine ⟨?_, ?_, ?_⟩
      · exact noTwoSpaces_append_left w _ hwns
          (noTwoSpaces_space_cons _ ihhead ihnts)
      · intro c hc
        rcases List.mem_append.mp hc with hcw | hcr
        · exact Or.inr (hwns c hcw)
        · rcases List.mem_cons.mp hcr with rfl | hcj
          · exact Or.inl rfl
          · exact ihchars c hcj
      · match w with
        | [] => exact absurd rfl hwne
        | c :: _ => exact hwns c (by simp)

theorem cleanCellContent_props (s : String) :
    ('\n' ∉ (cleanCellContent s).data) ∧
    ('\r' ∉ (cleanCellContent s).data) ∧
    noTwoSpaces (cleanCellContent s).data := by
  have hdata : (cleanCellContent s).data = joinSpace (goFieldsGo
      ((s.data.map (fun c => if c = '\n' then ' ' else c)).filter
        (fun c => c ≠ '\r')).length
      ((s.data.map (fun c => if c = '\n' then ' ' else c)).filter
        (fun c => c ≠ '\r'))) := rfl
  rw [hdata]
  have hsound := goFieldsGo_sound
    ((s.data.map (fun c => if c = '\n' then ' ' else c)).filter
      (fun c => c ≠ '\r')).length
    ((s.data.map (fun c => if c = '\n' then ' ' else c)).filter
      (fun c => c ≠ '\r'))
  obtain ⟨hnts, hchars, -⟩ := joinSpace_props _ (fun w hw => hsound w hw)
  refine ⟨?_, ?_, hnts⟩
  · intro hmem
    rcases hchars _ hmem with h | h
    · cases h
    · simp [goIsSpace] at h
  · intro hmem
    rcases hchars _ hmem with h | h
    · cases h
    · simp [goIsSpace] at h

/-- C5: for every complex table cell, the flattened cell string
produced by `getCellHTMLContent` contains no newline and no
carriage-return character, and contains no run of two or more
consecutive whitespace characters — the cell content is exactly one
logical line, with line structure expressed only by explicit `<br>`
tokens. -/
theorem c5_flattened_cell_single_line (p : ConfluencePlugin) (ctx : Ctx)
    (cell : Node) :
    ('\n' ∉ (getCellHTMLContent p ctx cell).data) ∧
    ('\r' ∉ (getCellHTMLContent p ctx cell).data) ∧
    noTwoSpaces (getCellHTMLContent p ctx cell).data :=
  cleanCellContent_props _

theorem strFoldl_shift : ∀ (l : List String) (a b : String),
    l.foldl (fun r s => r ++ s) (a ++ b) = a ++ l.foldl (fun r s => r ++ s) b := by
  intro l
  induction l with
  | nil => intro a b; rfl
  | cons s rest ih =>
    intro a b
    show rest.foldl _ (a ++ b ++ s) = _
    rw [String.append_assoc, ih a (b ++ s)]
    rfl

theorem strJoin_cons (s : String) (l : List String) :
    String.join (s :: l) = s ++ String.join l := by
  show l.foldl (fun r s => r ++ s) ("" ++ s) = _
  rw [show ("" ++ s) = (s ++ "") from by simp, strFoldl_shift l s ""]
  rfl

theorem renderRowsGo_pos : ∀ (rows : List (List String)) (i : Nat)
    (f0 hh : Bool) (mc : Nat), 0 < i →
    renderRowsGo i rows f0 hh mc = String.join (rows.map rowLine) := by
  intro rows
  induction rows with
  | nil => intro i f0 hh mc hi; rfl
  | cons r rest ih =>
    intro i f0 hh mc hi
    rw [renderRowsGo]
    rw [if_neg (by omega)]
    rw [ih (i+1) f0 hh mc (by omega)]
    rw [List.map_cons, strJoin_cons]
    simp

theorem maxColsOf_le : ∀ (rows : List (List String)) (acc : Nat),
    acc ≤ rows.foldl (fun m r => max m r.length) acc := by
  intro rows
  induction rows with
  | nil => intro acc; exact Nat.le_refl acc
  | cons r rest ih =>
    intro acc
    calc acc ≤ max acc r.length := Nat.le_max_left _ _
    _ ≤ rest.foldl (fun m r => max m r.length) (max acc r.length) := ih _

theorem maxColsOf_ge : ∀ (rows : List (List String)) (acc : Nat) (r : List String),
    r ∈ rows → r.length ≤ rows.foldl (fun m r => max m r.length) acc := by
  intro rows
  induction rows with
  | nil => intro acc r hr; cases hr
  | cons s rest ih =>
    intro acc r hr
    rcases List.mem_cons.mp hr with rfl | hrr
    · calc r.length ≤ max acc r.length := Nat.le_max_right _ _
      _ ≤ rest.foldl (fun m r => max m r.length) (max acc r.length) := maxColsOf_le _ _
    · exact ih _ r hrr

theorem padRow_length (mc : Nat) (r : List String) (h : r.length ≤ mc) :
    (padRow mc r).length = mc := by
  unfold padRow
  simp only [List.length_append, List.length_replicate]
  omega

theorem padded_lengths (rows : List (List String)) :
    ∀ r ∈ rows.map (padRow (maxColsOf rows)), r.length = maxColsOf rows := by
  intro r hr
  obtain ⟨s, hs, rfl⟩ := List.mem_map.mp hr
  exact padRow_length _ s (maxColsOf_ge rows 0 s hs)

/-- C1 (amended): for every table handled by the table renderer (one
with a tbody and at least one row containing `th`/`td` cells), the
emitted table consists of one line per row, each built from the same
number of cells — rows shorter than the maximum column count are padded
with single-space filler cells — and a single dash separator line is
emitted immediately after row 0 *iff* row 0 is an all-header row or no
row in the table is a header row; when row 0 is a data row but a later
row is a header row, no separator is emitted at all. -/
theorem c1_table_structure (p : ConfluencePlugin) (ctx : Ctx) (n tb : Node)
    (r0 : List String) (f0 : Bool) (rfs : List (List String × Bool))
    (mc : Nat) (hh : Bool)
    (htb : findTbody n.children = some tb)
    (hrows : extractRows p ctx tb.children = (r0, f0) :: rfs)
    (hmc : mc = maxColsOf (r0 :: rfs.map Prod.fst))
    (hhh : hh = (f0 || (rfs.map Prod.snd).any id)) :
    handleTable p ctx n =
      (rowLine (padRow mc r0) ++
        ((if f0 ∨ ¬hh then sepLine mc else "") ++
          (String.join (((rfs.map Prod.fst).map (padRow mc)).map rowLine) ++ "\n")),
       .success) ∧
    ∀ r ∈ (r0 :: rfs.map Prod.fst).map (padRow mc), r.length = mc := by
  constructor
  · unfold handleTable
    rw [htb]
    dsimp only
    rw [hrows]
    dsimp only
    have hmap : ((r0, f0) :: rfs).map Prod.fst = r0 :: rfs.map Prod.fst := by simp
    have hmap2 : (((r0, f0) :: rfs).map Prod.snd).any id =
        (f0 || (rfs.map Prod.snd).any id) := by simp
    rw [hmap, hmap2, ← hmc, ← hhh]
    rw [List.map_cons]
    rw [renderRowsGo]
    rw [renderRowsGo_pos _ 1 f0 hh mc (by omega)]
    have hcond : ((0 : Nat) = 0 ∧ (f0 ∨ ¬hh)) ↔ (f0 ∨ ¬hh) := by simp
    by_cases hc : (f0 ∨ ¬hh)
    · rw [if_pos (hcond.mpr hc), if_pos hc]
      simp [String.append_assoc]
    · rw [if_neg (by simpa [hcond] using hc), if_neg hc]
      simp [String.append_assoc]
  · intro r hr
    rw [hmc] at hr ⊢
    exact padded_lengths (r0 :: rfs.map Prod.fst) r hr


/-- C1 witness: a header-then-data table emits exactly one separator
line, directly after row 0. -/
theorem c1_table_structure_witness :
    handleTable {} ⟨textContent⟩ (.elem "table" []
      [.elem "tbody" []
        [.elem "tr" [] [.elem "th" [] [.text "h"]],
         .elem "tr" [] [.elem "td" [] [.text "a"]]]]) =
      ("| h |\n|---|\n| a |\n\n", .success) := by
  have h := (c1_table_structure {} ⟨textContent⟩ (.elem "table" []
      [.elem "tbody" []
        [.elem "tr" [] [.elem "th" [] [.text "h"]],
         .elem "tr" [] [.elem "td" [] [.text "a"]]]])
      (.elem "tbody" []
        [.elem "tr" [] [.elem "th" [] [.text "h"]],
         .elem "tr" [] [.elem "td" [] [.text "a"]]])
      ["h"] true [(["a"], false)] 1 true rfl (by decide) (by decide) (by decide)).1
  rw [h]
  decide

/-- C1 counterexample: a table whose row 0 is a data row while row 1 is
a header row is emitted with *no* separator line at all (the output
contains no dash), refuting the claim that exactly one separator line
is always emitted after row 0. -/
theorem c1_counterexample :
    handleTable {} ⟨textContent⟩ (.elem "table" []
      [.elem "tbody" []
        [.elem "tr" [] [.elem "td" [] [.text "a"]],
         .elem "tr" [] [.elem "th" [] [.text "b"]]]]) =
      ("| a |\n| b |\n\n", .success) ∧
    (∀ c ∈ "| a |\n| b |\n\n".data, c ≠ '-') := by
  constructor
  · decide
  · decide

theorem splitNlChars_ne_nil : ∀ cs : List Char, splitNlChars cs ≠ [] := by
  intro cs
  induction cs with
  | nil => simp [splitNlChars]
  | cons c tl ih =>
    rw [splitNlChars]
    by_cases hc : c = '\n'
    · simp [hc]
    · rw [if_neg hc]
      split
      · simp
      · simp

theorem splitNlChars_no_nl : ∀ (cs : List Char) (w : List Char),
    w ∈ splitNlChars cs → '\n' ∉ w := by
  intro cs
  induction cs with
  | nil =>
    intro w hw
    simp [splitNlChars] at hw
    simp [hw]
  | cons c tl ih =>
    intro w hw
    rw [splitNlChars] at hw
    by_cases hc : c = '\n'
    · rw [if_pos hc] at hw
      rcases List.mem_cons.mp hw with rfl | hrest
      · simp
      · exact ih w hrest
    · rw [if_neg hc] at hw
      split at hw
      · rename_i w0 ws0 heq
        rcases List.mem_cons.mp hw with rfl | hrest
        · intro hmem
          rcases List.mem_cons.mp hmem with h1 | h2
          · exact hc h1.symm
          · exact ih w0 (by rw [heq]; simp) h2
        · exact ih w (by rw [heq]; simp [hrest])
      · rename_i heq
        rcases List.mem_cons.mp hw with rfl | hrest
        · intro hmem
          rcases List.mem_cons.mp hmem with h1 | h2
          · exact hc h1.symm
          · simp at h2
        · simp at hrest

theorem splitNl_append_free : ∀ (p cs : List Char) (w : List Char)
    (ws : List (List Char)), (∀ c ∈ p, c ≠ '\n') →
    splitNlChars cs = w :: ws → splitNlChars (p ++ cs) = (p ++ w) :: ws := by
  intro p
  induction p with
  | nil => intro cs w ws _ h; simpa using h
  | cons a p ih =>
    intro cs w ws hfree h
    rw [List.cons_append, splitNlChars]
    rw [if_neg (hfree a (by simp))]
    rw [ih cs w ws (fun c hc => hfree c (by simp [hc])) h]
    rfl

theorem splitNl_intercal : ∀ parts : List (List Char), parts ≠ [] →
    (∀ w ∈ parts, ∀ c ∈ w, c ≠ '\n') →
    splitNlChars (intercalNl parts) = parts := by
  intro parts
  induction parts with
  | nil => intro h; exact absurd rfl h
  | cons w rest ih =>
    intro _ hfree
    match rest with
    | [] =>
      show splitNlChars w = [w]
      have h := splitNl_append_free w [] [] [] (hfree w (by simp)) rfl
      simpa using h
    | w2 :: t =>
      show splitNlChars (w ++ '\n' :: intercalNl (w2 :: t)) = w :: w2 :: t
      have hrest := ih (by simp) (fun v hv => hfree v (by simp [hv]))
      have h := splitNl_append_free w ('\n' :: intercalNl (w2 :: t)) [] (w2 :: t)
        (hfree w (by simp)) (by rw [splitNlChars, if_pos rfl, hrest])
      simpa using h


theorem blockquoteLines_data : ∀ ls : List String,
    (blockquoteLines ls).data = (ls.map (fun l => (bqLine l).data ++ ['\n'])).flatten := by
  intro ls
  induction ls with
  | nil => rfl
  | cons l rest ih =>
    show ((if goTrimSpace l ≠ "" then "> " ++ l ++ "\n" else ">\n") ++
      blockquoteLines rest).data = _
    rw [strDataAppend, ih]
    simp only [List.map_cons, List.flatten_cons]
    congr 1
    by_cases hb : goTrimSpace l ≠ ""
    · rw [if_pos hb]
      show ("> " ++ l ++ "\n").data = (bqLine l).data ++ ['\n']
      rw [bqLine, if_pos hb]
      rw [strDataAppend, strDataAppend]
    · rw [if_neg hb]
      rw [bqLine, if_neg hb]
      rfl

theorem flatten_map_nl (f : String → List Char) : ∀ ls : List String, ls ≠ [] →
    (ls.map (fun l => f l ++ ['\n'])).flatten = intercalNl (ls.map f) ++ ['\n'] := by
  intro ls
  induction ls with
  | nil => intro h; exact absurd rfl h
  | cons l rest ih =>
    intro _
    match rest with
    | [] => simp [intercalNl]
    | l2 :: t =>
      rw [List.map_cons, List.flatten_cons, ih (by simp)]
      show _ = intercalNl (f l :: f l2 :: List.map f t) ++ ['\n']
      rw [show intercalNl (f l :: f l2 :: List.map f t) =
        f l ++ '\n' :: intercalNl (f l2 :: List.map f t) from rfl]
      simp [List.append_assoc]

theorem trimNl_append_free (a w : List Char) (hne : w ≠ [])
    (hfree : ∀ c ∈ w, c ≠ '\n') :
    trimNlData (a ++ w ++ ['\n']) = a ++ w := by
  unfold trimNlData
  rw [List.reverse_append, List.reverse_append]
  simp only [List.reverse_cons, List.reverse_nil, List.nil_append]
  rw [List.cons_append]
  rw [List.dropWhile_cons]
  simp only [decide_True, if_true]
  match hw : w.reverse with
  | [] => exact absurd (by simpa using hw) hne
  | c :: t =>
    have hcw : c ∈ w := by
      have : c ∈ w.reverse := by rw [hw]; simp
      simpa using this
    simp only [List.nil_append, List.cons_append]
    rw [List.dropWhile_cons]
    rw [if_neg (by simp [hfree c hcw])]
    rw [← List.cons_append, ← hw]
    rw [List.reverse_append]
    simp

theorem intercal_last_decomp : ∀ (parts : List (List Char)), parts ≠ [] →
    ∃ a last, intercalNl parts = a ++ last ∧ last ∈ parts := by
  intro parts
  induction parts with
  | nil => intro h; exact absurd rfl h
  | cons w rest ih =>
    intro _
    match rest with
    | [] => exact ⟨[], w, by simp [intercalNl], by simp⟩
    | w2 :: t =>
      obtain ⟨a, last, ha, hm⟩ := ih (by simp)
      refine ⟨w ++ '\n' :: a, last, ?_, by simp [hm]⟩
      rw [show intercalNl (w :: w2 :: t) = w ++ '\n' :: intercalNl (w2 :: t) from rfl]
      rw [ha]
      simp [List.append_assoc]

theorem trim_intercal (parts : List (List Char)) (hne : parts ≠ [])
    (hparts : ∀ w ∈ parts, w ≠ [] ∧ ∀ c ∈ w, c ≠ '\n') :
    trimNlData (intercalNl parts ++ ['\n']) = intercalNl parts := by
  obtain ⟨a, last, ha, hm⟩ := intercal_last_decomp parts hne
  rw [ha]
  have hlast := hparts last hm
  exact trimNl_append_free a _ hlast.1 hlast.2


theorem intercalNl_cons (a : List Char) (l : List (List Char)) (h : l ≠ []) :
    intercalNl (a :: l) = a ++ '\n' :: intercalNl l := by
  match l with
  | [] => exact absurd rfl h
  | b :: t => rfl

theorem blockquote_multiline (ctx : Ctx) (n : Node) (emoji label : String)
    (hemoji : ∀ c ∈ emoji.data, c ≠ '\n') (hlabel : ∀ c ∈ label.data, c ≠ '\n')
    (hlen : 1 < (goSplitNl (convertNestedHTML ctx n)).length) :
    goSplitNl (handleBlockquoteMacro ctx n emoji label) =
      ("> " ++ (emoji ++ " **" ++ label ++ ":**")) ::
        (goSplitNl (convertNestedHTML ctx n)).map bqLine := by
  have hcne : convertNestedHTML ctx n ≠ "" := by
    intro h
    rw [h] at hlen
    simp [goSplitNl, splitNlChars] at hlen
  have hlinesne : goSplitNl (convertNestedHTML ctx n) ≠ [] := by
    unfold goSplitNl
    simp only [ne_eq, List.map_eq_nil_iff]
    exact splitNlChars_ne_nil _
  have hlinefree : ∀ l ∈ goSplitNl (convertNestedHTML ctx n), ∀ c ∈ l.data, c ≠ '\n' := by
    intro l hl c hcl
    obtain ⟨w, hw, rfl⟩ := List.mem_map.mp hl
    intro hEq
    subst hEq
    exact splitNlChars_no_nl _ w hw hcl
  have hpfxdata : ("> " ++ (emoji ++ " **" ++ label ++ ":**")).data =
      '>' :: ' ' :: (emoji.data ++ (" **".data ++ (label.data ++ ":**".data))) := by
    rw [strDataAppend, strDataAppend, strDataAppend, strDataAppend]
    simp [List.append_assoc]
  have hparts : ∀ w ∈ ("> " ++ (emoji ++ " **" ++ label ++ ":**")).data ::
      (goSplitNl (convertNestedHTML ctx n)).map (fun l => (bqLine l).data),
      w ≠ [] ∧ ∀ c ∈ w, c ≠ '\n' := by
    intro w hw
    rcases List.mem_cons.mp hw with rfl | hwl
    · refine ⟨by rw [hpfxdata]; simp, ?_⟩
      intro c hc
      rw [hpfxdata] at hc
      rcases List.mem_cons.mp hc with rfl | hc
      · decide
      rcases List.mem_cons.mp hc with rfl | hc
      · decide
      rcases List.mem_append.mp hc with hc | hc
      · exact hemoji c hc
      rcases List.mem_append.mp hc with hc | hc
      · intro hEq; subst hEq; simp at hc
      rcases List.mem_append.mp hc with hc | hc
      · exact hlabel c hc
      · intro hEq; subst hEq; simp at hc
    · obtain ⟨l, hl, rfl⟩ := List.mem_map.mp hwl
      unfold bqLine
      by_cases hb : goTrimSpace l ≠ ""
      · rw [if_pos hb]
        refine ⟨by rw [strDataAppend]; simp, ?_⟩
        intro c hc
        rw [strDataAppend] at hc
        rcases List.mem_append.mp hc with hc | hc
        · intro hEq; subst hEq; simp at hc
        · exact hlinefree l hl c hc
      · rw [if_neg hb]
        refine ⟨by simp, ?_⟩
        intro c hc
        rcases List.mem_cons.mp hc with rfl | hc
        · decide
        · simp at hc
  unfold handleBlockquoteMacro
  rw [if_neg hcne]
  rw [if_pos hlen]
  have hXdata : ("> " ++ (emoji ++ " **" ++ label ++ ":**") ++ "\n" ++
      blockquoteLines (goSplitNl (convertNestedHTML ctx n))).data =
      intercalNl (("> " ++ (emoji ++ " **" ++ label ++ ":**")).data ::
        (goSplitNl (convertNestedHTML ctx n)).map (fun l => (bqLine l).data)) ++
      ['\n'] := by
    rw [strDataAppend, strDataAppend]
    rw [blockquoteLines_data,
      flatten_map_nl (fun l => (bqLine l).data) _ hlinesne]
    rw [intercalNl_cons _ _ (by simp [hlinesne])]
    show (_ ++ "\n".data) ++ _ = _
    simp [List.append_assoc]
  have htrim : (trimNlRight ("> " ++ (emoji ++ " **" ++ label ++ ":**") ++ "\n" ++
      blockquoteLines (goSplitNl (convertNestedHTML ctx n)))).data =
      intercalNl (("> " ++ (emoji ++ " **" ++ label ++ ":**")).data ::
        (goSplitNl (convertNestedHTML ctx n)).map (fun l => (bqLine l).data)) := by
    show trimNlData _ = _
    rw [hXdata]
    exact trim_intercal _ (by simp) hparts
  show (splitNlChars (trimNlRight _).data).map (fun l => String.mk l) = _
  rw [htrim]
  rw [splitNl_intercal _ (by simp) (fun w hw c hc => (hparts w hw).2 c hc)]
  simp only [List.map_cons, List.map_map]
  rfl


theorem blockquote_warning_scenario (p : ConfluencePlugin) (ctx : Ctx)
    (hrender : goTrimSpace (ctx.renderNodes (.elem "p" [] [.text "Disk full"])) =
      "Disk full") :
    handleMacro p ctx (.elem "ac:structured-macro" [("ac:name", "warning")]
      [.elem "ac:rich-text-body" [] [.elem "p" [] [.text "Disk full"]]]) =
      ("> ⚠️ **Warning:** Disk full", .success) := by
  have hcontent : convertNestedHTML ctx
      (.elem "ac:structured-macro" [("ac:name", "warning")]
        [.elem "ac:rich-text-body" [] [.elem "p" [] [.text "Disk full"]]]) =
      "Disk full" := by
    unfold convertNestedHTML
    have hf : findRichTextBodyNode
        (Node.elem "ac:structured-macro" [("ac:name", "warning")]
          [.elem "ac:rich-text-body" [] [.elem "p" [] [.text "Disk full"]]]) =
        some (.elem "ac:rich-text-body" [] [.elem "p" [] [.text "Disk full"]]) := rfl
    rw [hf]
    show goTrimSpace (convertNestedChildren ctx [.elem "p" [] [.text "Disk full"]]) = _
    have hcc : convertNestedChildren ctx [.elem "p" [] [.text "Disk full"]] =
        ctx.renderNodes (.elem "p" [] [.text "Disk full"]) ++ "" := rfl
    rw [hcc]
    have happ : ctx.renderNodes (.elem "p" [] [.text "Disk full"]) ++ "" =
        ctx.renderNodes (.elem "p" [] [.text "Disk full"]) :=
      strExt _ _ (by rw [strDataAppend]; simp)
    rw [happ, hrender]
  show (handleBlockquoteMacro ctx
    (.elem "ac:structured-macro" [("ac:name", "warning")]
      [.elem "ac:rich-text-body" [] [.elem "p" [] [.text "Disk full"]]])
    "⚠️" "Warning", RenderStatus.success) = _
  unfold handleBlockquoteMacro
  rw [hcontent]
  decide

/-- C7: an admonition macro (here: warning) renders its recursively
converted rich body inside a blockquote with the kind-specific
emoji+label marker: the scenario input converts to
`> ⚠️ **Warning:** Disk full` (given that the library renders the
paragraph to its text), and for any multi-line body every line of the
output repeats the `"> "` marker, with blank body lines rendered as a
bare `">"`. -/
theorem c7_admonition_blockquote :
    (∀ (p : ConfluencePlugin) (ctx : Ctx),
      goTrimSpace (ctx.renderNodes (.elem "p" [] [.text "Disk full"])) =
        "Disk full" →
      handleMacro p ctx (.elem "ac:structured-macro" [("ac:name", "warning")]
        [.elem "ac:rich-text-body" [] [.elem "p" [] [.text "Disk full"]]]) =
        ("> ⚠️ **Warning:** Disk full", .success)) ∧
    (∀ (ctx : Ctx) (n : Node) (emoji label : String),
      (∀ c ∈ emoji.data, c ≠ '\n') → (∀ c ∈ label.data, c ≠ '\n') →
      1 < (goSplitNl (convertNestedHTML ctx n)).length →
      goSplitNl (handleBlockquoteMacro ctx n emoji label) =
        ("> " ++ (emoji ++ " **" ++ label ++ ":**")) ::
          (goSplitNl (convertNestedHTML ctx n)).map bqLine) :=
  ⟨blockquote_warning_scenario, blockquote_multiline⟩

/-- C7 witness: the warning scenario with a renderer returning the
paragraph text, and a three-line body whose blank middle line becomes a
bare `">"`. -/
theorem c7_admonition_blockquote_witness :
    (handleMacro {} ⟨fun _ => "Disk full"⟩
      (.elem "ac:structured-macro" [("ac:name", "warning")]
        [.elem "ac:rich-text-body" [] [.elem "p" [] [.text "Disk full"]]]) =
      ("> ⚠️ **Warning:** Disk full", .success)) ∧
    goSplitNl (handleBlockquoteMacro ⟨fun _ => "A\n\nB"⟩
        (.elem "ac:structured-macro" [("ac:name", "warning")]
          [.elem "ac:rich-text-body" [] [.elem "p" [] [.text "x"]]])
        "⚠️" "Warning") =
      ["> ⚠️ **Warning:**", "> A", ">", "> B"] := by
  constructor
  · exact c7_admonition_blockquote.1 {} ⟨fun _ => "Disk full"⟩ (by decide)
  · have h := c7_admonition_blockquote.2 ⟨fun _ => "A\n\nB"⟩
      (.elem "ac:structured-macro" [("ac:name", "warning")]
        [.elem "ac:rich-text-body" [] [.elem "p" [] [.text "x"]]])
      "⚠️" "Warning" (by decide) (by decide) (by decide)
    rw [h]
    decide

end ConfluenceMd

